import Mathlib

/-!
# Traineer: the trainer's mood state machine

A shallow embedding of `trainer.go`, in two layers.

The exact layer reads a `float64` as a rational with exact arithmetic. It
carries the claims about control flow, error values, list handling and the
shape of the mood update, which do not depend on how floats round or on the
special values.

The binary64 layer (namespace `Binary64`) reads a `float64` as an IEEE 754
binary64 value: NaN, the infinities, or a finite number, every arithmetic
result rounded to nearest with ties to even, overflowing to an infinity, and
every comparison false on NaN. It carries the claims whose truth depends on
NaN, the infinities or rounding.

Modelling conventions of both layers.

* A Go method with a pointer or value receiver becomes a function from the
  receiver to a `Run`: either the method returned (with its Go result tuple and
  the trainer as the caller sees it afterwards) or it stopped in a run-time
  error (with the trainer as it was at that moment).
* A Go `(T, error)` result is the pair `T × Option Error`; `none` is `nil`.
* The catalog lookups, the mood bounds and the random draws are not part of
  `trainer.go`; they are parameters of the functions that use them.
-/

namespace Traineer

/-! ## Errors -/

/-- Go `error` values that the trainer can see: its three sentinel errors, an
error raised by the catalog, and an error wrapped with a message. -/
inductive Error where
  | errNotFound
  | errTrainerNoRewards
  | errTrainerNoPunishments
  | catalogFailure (msg : String)
  | wrapped (cause : Error) (message : String)
  deriving DecidableEq, Repr

open Error (errNotFound errTrainerNoRewards errTrainerNoPunishments)

/-- Modelled from the spec: `errors.Wrap` of `github.com/pkg/errors`, which is
not among the sources; for a non-nil error it gives a new error that keeps the
cause and adds the message. -/
def errors.Wrap (err : Error) (message : String) : Error :=
  Error.wrapped err message

/-! ## Records of the catalog -/

/-- Modelled from the spec: the embedded `MainObject` is declared outside
`trainer.go`; the spec calls it the identity of an entity. -/
structure MainObject where
  ID : String
  deriving DecidableEq, Repr

/-- Modelled from the spec: a confession is an identifier and the `value` it
applies to the mood. -/
structure Confession where
  ID : String
  Value : ℚ
  deriving DecidableEq, Repr

/-- Modelled from the spec: a permission is an identifier and the two mood
thresholds `minMood` and `certainMood`. -/
structure Permission where
  ID : String
  MinMood : ℚ
  CertainMood : ℚ
  deriving DecidableEq, Repr

/-- Modelled from the spec: a punishment is an identifier and descriptive
text. -/
structure Punishment where
  ID : String
  Description : String
  deriving DecidableEq, Repr

/-- Modelled from the spec: a reward is an identifier and its `value`. -/
structure Reward where
  ID : String
  Value : ℚ
  deriving DecidableEq, Repr

/-- Modelled from the spec: a step of a scenario has a title and a
description. -/
structure Step where
  Title : String
  Description : String
  deriving DecidableEq, Repr

/-- Modelled from the spec: a scenario is an identifier, its ordered steps and
the `reward` applied to the mood after it ran. -/
structure Scenario where
  ID : String
  Steps : List Step
  Reward : ℚ
  deriving DecidableEq, Repr

/-- The Go zero value `Reward{}`. -/
def Reward.zero : Reward := { ID := "", Value := 0 }

/-- The Go zero value `Punishment{}`. -/
def Punishment.zero : Punishment := { ID := "", Description := "" }

/-- The five lookups `GetConfession`, `GetPermission`, `GetPunishment`,
`GetReward` and `GetScenario`, which `trainer.go` calls and does not define:
each maps an identifier to a record or to a non-nil error. -/
structure Catalog where
  GetConfession : String → Except Error Confession
  GetPermission : String → Except Error Permission
  GetPunishment : String → Except Error Punishment
  GetReward : String → Except Error Reward
  GetScenario : String → Except Error Scenario

/-- The package constants `TrainerMinMood` and `TrainerMaxMood`, which
`trainer.go` uses and does not define. -/
structure Bounds where
  TrainerMinMood : ℚ
  TrainerMaxMood : ℚ
  deriving DecidableEq, Repr

/-! ## The trainer -/

/-- The `Trainer` struct. -/
structure Trainer extends MainObject where
  Active : Bool
  RewardMultiplier : ℚ
  PunishmentMultiplier : ℚ
  ScenarioRate : Int
  Scenarios : List String
  Rewards : List String
  Punishments : List String
  Permissions : List String
  Confessions : List String
  mood : ℚ
  deriving DecidableEq, Repr

/-- The outcome of a method call on a trainer: it returned `val` and left the
trainer as `t`, or it stopped in a run-time error with the trainer as `t`. -/
inductive Run (α : Type) where
  | ret (val : α) (t : Trainer)
  | panic (t : Trainer)

/-- The trainer after the call. -/
def Run.trainer {α : Type} : Run α → Trainer
  | .ret _ t => t
  | .panic t => t

/-- The returned value, if the call returned. -/
def Run.result {α : Type} : Run α → Option α
  | .ret v _ => some v
  | .panic _ => none

/-- Modelled from the spec: `sliceContains` is a helper outside `trainer.go`;
it tells whether the identifier is an element of the allow-list. -/
def sliceContains (s : List String) (e : String) : Bool :=
  s.any (fun a => a == e)

/-- `Trainer.Mood`. -/
def Trainer.Mood (t : Trainer) : ℚ :=
  t.mood

/-- `Trainer.modifyMood`: scale the delta by the reward or the punishment
multiplier, add it, then cut the mood back to the upper and to the lower
bound, in this order. -/
def Trainer.modifyMood (b : Bounds) (t : Trainer) (val : ℚ) : Trainer :=
  let t1 : Trainer :=
    if val > 0 then { t with mood := t.mood + (val * t.RewardMultiplier) }
    else { t with mood := t.mood + (val * t.PunishmentMultiplier) }
  let t2 : Trainer :=
    if t1.mood > b.TrainerMaxMood then { t1 with mood := b.TrainerMaxMood } else t1
  if t2.mood < b.TrainerMinMood then { t2 with mood := b.TrainerMinMood } else t2

/-- `Trainer.ConfessTo`. -/
def Trainer.ConfessTo (b : Bounds) (cat : Catalog) (t : Trainer)
    (confessionID : String) : Run (Option Error) :=
  if !sliceContains t.Confessions confessionID then
    .ret (some (errors.Wrap errNotFound "trainer doesn't know confession")) t
  else
    match cat.GetConfession confessionID with
    | .error err => .ret (some (errors.Wrap err "error getting confession")) t
    | .ok c => .ret none (t.modifyMood b c.Value)

/-- `Trainer.AskPermission`; `r` is the value drawn by `rand.Float64()`. -/
def Trainer.AskPermission (cat : Catalog) (t : Trainer) (permissionID : String)
    (r : ℚ) : Run (Bool × Option Error) :=
  if !sliceContains t.Permissions permissionID then
    .ret (false, some (errors.Wrap errNotFound "trainer doesn't know permission")) t
  else
    match cat.GetPermission permissionID with
    | .error err => .ret (false, some (errors.Wrap err "error getting permission")) t
    | .ok p =>
      if t.mood < p.MinMood then .ret (false, none) t
      else if t.mood < p.CertainMood then
        let pb := (t.mood - p.MinMood) / (p.CertainMood - p.MinMood)
        if r ≤ pb then .ret (true, none) t
        else .ret (true, none) t
      else .ret (true, none) t

/-- `Trainer.GetPunished`: the length test and the read of `Punishments[0]`
are the two arms of the match. -/
def Trainer.GetPunished (cat : Catalog) (t : Trainer) (_val : ℚ) :
    Run (Punishment × Option Error) :=
  match t.Punishments with
  | [] => .ret (Punishment.zero, some errTrainerNoPunishments) t
  | id0 :: _ =>
    match cat.GetPunishment id0 with
    | .error err => .ret (Punishment.zero, some (errors.Wrap err "error getting punishment")) t
    | .ok p => .ret (p, none) t

/-- The first loop of `Trainer.Reward`: resolve the identifiers in list order,
appending to `rewards`, and stop at the first lookup that fails. -/
def resolveRewards (cat : Catalog) : List String → List Reward → Except Error (List Reward)
  | [], rewards => .ok rewards
  | r :: rest, rewards =>
    match cat.GetReward r with
    | .error err => .error (errors.Wrap err "error getting reward")
    | .ok rew => resolveRewards cat rest (rewards ++ [rew])

/-- The second loop of `Trainer.Reward`: the search for `smallestDeviation`,
started from the given value. -/
def searchDeviation (val : ℚ) : List Reward → ℚ → ℚ
  | [], smallestDeviation => smallestDeviation
  | r :: rest, smallestDeviation =>
    let currentDeviation := r.Value - val
    if currentDeviation * currentDeviation < smallestDeviation * smallestDeviation then
      searchDeviation val rest currentDeviation
    else
      searchDeviation val rest smallestDeviation

/-- The third loop of `Trainer.Reward`: collect into `possibleRewards` the
rewards whose value equals `smallestDeviation`. -/
def collectPossible (smallestDeviation : ℚ) : List Reward → List Reward → List Reward
  | [], possibleRewards => possibleRewards
  | r :: rest, possibleRewards =>
    if r.Value = smallestDeviation then
      collectPossible smallestDeviation rest (possibleRewards ++ [r])
    else
      collectPossible smallestDeviation rest possibleRewards

/-- `Trainer.Reward`; `k` is the random source of `rand.Intn(n)`, which stops
in a run-time error when `n` is not positive and otherwise gives an index
below `n`, here `k % n`. -/
def Trainer.Reward (b : Bounds) (cat : Catalog) (t : Trainer) (val : ℚ) (k : ℕ) :
    Run (Reward × Option Error) :=
  if t.Rewards.length = 0 then
    .ret (Reward.zero, some errTrainerNoRewards) t
  else
    match resolveRewards cat t.Rewards [] with
    | .error err => .ret (Reward.zero, some err) t
    | .ok rewards =>
      let smallestDeviation :=
        searchDeviation val rewards (b.TrainerMaxMood - b.TrainerMinMood)
      let possibleRewards := collectPossible smallestDeviation rewards []
      if h : 0 < possibleRewards.length then
        let chosen := k % possibleRewards.length
        let r := possibleRewards.get ⟨chosen, Nat.mod_lt k h⟩
        .ret (r, none) (t.modifyMood b r.Value)
      else
        .panic t

/-- The lines printed by the loop of `Trainer.triggerScenario`, appended to
the lines printed so far. -/
def printSteps : List Step → List String → List String
  | [], out => out
  | st :: rest, out => printSteps rest (out ++ [st.Title, st.Description])

/-- `Trainer.triggerScenario`, returning the printed lines next to the error;
reading `Scenarios[0]` of an empty list is a run-time error. -/
def Trainer.triggerScenario (b : Bounds) (cat : Catalog) (t : Trainer) :
    Run (List String × Option Error) :=
  match t.Scenarios with
  | [] => .panic t
  | id0 :: _ =>
    match cat.GetScenario id0 with
    | .error err => .ret ([], some (errors.Wrap err "error getting scenario")) t
    | .ok s => .ret (printSteps s.Steps [], none) (t.modifyMood b s.Reward)

/-! ## Definitions that follow the spec -/

/-- The clamp of the spec: `clamp(x, lo, hi) = max(lo, min(x, hi))`. -/
def clamp (x lo hi : ℚ) : ℚ :=
  max lo (min x hi)

/-- The lines the spec expects from a scenario: for the steps in list order,
the title and then the description of each. -/
def emittedLines : List Step → List String
  | [] => []
  | st :: rest => st.Title :: st.Description :: emittedLines rest

/-! ## Sample data -/

/-- Mood bounds `-10` and `10`. -/
def sampleBounds : Bounds := { TrainerMinMood := -10, TrainerMaxMood := 10 }

/-- A catalog with two confessions, two permissions, one punishment, four
rewards and one scenario; every other lookup fails. -/
def sampleCatalog : Catalog where
  GetConfession := fun id =>
    if id = "late" then .ok { ID := "late", Value := -2 }
    else if id = "sweets" then .ok { ID := "sweets", Value := -1 }
    else .error (Error.catalogFailure "no such confession")
  GetPermission := fun id =>
    if id = "tv" then .ok { ID := "tv", MinMood := 0, CertainMood := 10 }
    else if id = "games" then .ok { ID := "games", MinMood := 2, CertainMood := 8 }
    else .error (Error.catalogFailure "no such permission")
  GetPunishment := fun id =>
    if id = "laps" then .ok { ID := "laps", Description := "run ten laps" }
    else .error (Error.catalogFailure "no such punishment")
  GetReward := fun id =>
    if id = "one" then .ok { ID := "one", Value := 1 }
    else if id = "four" then .ok { ID := "four", Value := 4 }
    else if id = "five" then .ok { ID := "five", Value := 5 }
    else if id = "zero" then .ok { ID := "zero", Value := 0 }
    else .error (Error.catalogFailure "no such reward")
  GetScenario := fun id =>
    if id = "walk" then
      .ok { ID := "walk",
            Steps := [{ Title := "Shoes", Description := "Put them on" },
                      { Title := "Door", Description := "Go outside" }],
            Reward := 3 }
    else .error (Error.catalogFailure "no such scenario")

/-- A trainer with the given reward list and mood. -/
def sampleTrainer (rewards : List String) (mood : ℚ) : Trainer where
  ID := "coach"
  Active := true
  RewardMultiplier := 2
  PunishmentMultiplier := 1
  ScenarioRate := 60
  Scenarios := ["walk"]
  Rewards := rewards
  Punishments := ["laps", "dishes"]
  Permissions := ["tv", "party"]
  Confessions := ["late", "lazy"]
  mood := mood

/-! ## The binary64 layer

The claims whose truth depends on NaN, the infinities or rounding are settled
on a second embedding of the same methods, in which a `float64` is an IEEE 754
binary64 value and every arithmetic step rounds. The methods keep their source
names inside the namespace `Binary64`.

Every operation rounds on its own; a fused multiply-add, which Go permits on
some architectures, is not modelled. A finite value is kept as its exact
rational; `F64.Valid` says that it is one of the numbers binary64 can hold. The sign of a zero is not kept: it shows
only in a division by zero, and the one division of `trainer.go` has a
non-zero divisor whenever it is reached with a `MinMood` that is not NaN. -/

namespace Binary64

/-- A `float64` value: NaN, the two infinities, or a finite number given by
its exact rational value; the two zeros are not told apart. -/
inductive F64 where
  | nan
  | ninf
  | pinf
  | fin (q : ℚ)
  deriving DecidableEq, Repr

/-- Round a rational to the nearest integer, a tie going to the even one. -/
def roundHalfEven (x : ℚ) : ℤ :=
  if x - ⌊x⌋ < 1 / 2 then ⌊x⌋
  else if 1 / 2 < x - ⌊x⌋ then ⌊x⌋ + 1
  else if ⌊x⌋ % 2 = 0 then ⌊x⌋ else ⌊x⌋ + 1

/-- The exponent of the unit in the last place for the magnitude `a`: 53
significant bits, and never below the subnormal exponent `-1074`. -/
def ulpExp (a : ℚ) : ℤ :=
  max (Int.log 2 a - 52) (-1074)

/-- The magnitude `a ≥ 0` rounded to 53 significant bits, with the exponent
not bounded above. -/
def roundMag (a : ℚ) : ℚ :=
  (roundHalfEven (a / (2 : ℚ) ^ ulpExp a) : ℚ) * (2 : ℚ) ^ ulpExp a

/-- The binary64 value of an exact result: round to nearest, ties to even,
overflow to the infinity of the same sign. -/
def round (q : ℚ) : F64 :=
  if 0 ≤ q then
    if (2 : ℚ) ^ (1024 : ℕ) ≤ roundMag q then .pinf else .fin (roundMag q)
  else
    if (2 : ℚ) ^ (1024 : ℕ) ≤ roundMag (-q) then .ninf else .fin (-(roundMag (-q)))

/-- Float negation. -/
def F64.neg : F64 → F64
  | .nan => .nan
  | .ninf => .pinf
  | .pinf => .ninf
  | .fin q => .fin (-q)

/-- Float addition `x + y`. -/
def F64.add : F64 → F64 → F64
  | .nan, _ => .nan
  | _, .nan => .nan
  | .pinf, .ninf => .nan
  | .ninf, .pinf => .nan
  | .pinf, _ => .pinf
  | _, .pinf => .pinf
  | .ninf, _ => .ninf
  | _, .ninf => .ninf
  | .fin a, .fin b => round (a + b)

/-- Float subtraction `x - y`. -/
def F64.sub (x y : F64) : F64 :=
  F64.add x (F64.neg y)

/-- Float multiplication `x * y`; an infinity times zero is NaN. -/
def F64.mul : F64 → F64 → F64
  | .nan, _ => .nan
  | _, .nan => .nan
  | .pinf, .pinf => .pinf
  | .pinf, .ninf => .ninf
  | .ninf, .pinf => .ninf
  | .ninf, .ninf => .pinf
  | .pinf, .fin b => if b = 0 then .nan else if 0 < b then .pinf else .ninf
  | .ninf, .fin b => if b = 0 then .nan else if 0 < b then .ninf else .pinf
  | .fin a, .pinf => if a = 0 then .nan else if 0 < a then .pinf else .ninf
  | .fin a, .ninf => if a = 0 then .nan else if 0 < a then .ninf else .pinf
  | .fin a, .fin b => round (a * b)

/-- Float division `x / y`; a zero divisor counts as `+0`. -/
def F64.div : F64 → F64 → F64
  | .nan, _ => .nan
  | _, .nan => .nan
  | .pinf, .pinf => .nan
  | .pinf, .ninf => .nan
  | .ninf, .pinf => .nan
  | .ninf, .ninf => .nan
  | .pinf, .fin b => if 0 ≤ b then .pinf else .ninf
  | .ninf, .fin b => if 0 ≤ b then .ninf else .pinf
  | .fin _, .pinf => .fin 0
  | .fin _, .ninf => .fin 0
  | .fin a, .fin b =>
    if b = 0 then (if a = 0 then .nan else if 0 < a then .pinf else .ninf)
    else round (a / b)

/-- Float comparison `x < y`: false as soon as one side is NaN. -/
def F64.lt : F64 → F64 → Bool
  | .fin a, .fin b => decide (a < b)
  | .ninf, .fin _ => true
  | .ninf, .pinf => true
  | .fin _, .pinf => true
  | _, _ => false

/-- Float comparison `x <= y`: false as soon as one side is NaN. -/
def F64.le : F64 → F64 → Bool
  | .fin a, .fin b => decide (a ≤ b)
  | .ninf, .ninf => true
  | .ninf, .fin _ => true
  | .ninf, .pinf => true
  | .fin _, .pinf => true
  | .pinf, .pinf => true
  | _, _ => false

/-- Float comparison `x == y`: NaN equals nothing, itself included. -/
def F64.eq : F64 → F64 → Bool
  | .fin a, .fin b => decide (a = b)
  | .ninf, .ninf => true
  | .pinf, .pinf => true
  | _, _ => false

/-- A value that is neither NaN nor an infinity. -/
def F64.Finite : F64 → Prop
  | .fin _ => True
  | _ => False

/-- A value that a `float64` variable can hold: NaN, an infinity, or a finite
number that rounding leaves unchanged. -/
def F64.Valid : F64 → Prop
  | .fin q => round q = .fin q
  | _ => True

/-- A confession with a `float64` value. -/
structure Confession where
  ID : String
  Value : F64
  deriving DecidableEq, Repr

/-- A permission with `float64` thresholds. -/
structure Permission where
  ID : String
  MinMood : F64
  CertainMood : F64
  deriving DecidableEq, Repr

/-- A reward with a `float64` value. -/
structure Reward where
  ID : String
  Value : F64
  deriving DecidableEq, Repr

/-- A scenario with a `float64` reward. -/
structure Scenario where
  ID : String
  Steps : List Step
  Reward : F64
  deriving DecidableEq, Repr

/-- The Go zero value `Reward{}`. -/
def Reward.zero : Reward := { ID := "", Value := .fin 0 }

/-- The five catalog lookups, over the `float64` records. -/
structure Catalog where
  GetConfession : String → Except Error Confession
  GetPermission : String → Except Error Permission
  GetPunishment : String → Except Error Punishment
  GetReward : String → Except Error Reward
  GetScenario : String → Except Error Scenario

/-- The package constants `TrainerMinMood` and `TrainerMaxMood` as `float64`
values. -/
structure Bounds where
  TrainerMinMood : F64
  TrainerMaxMood : F64
  deriving DecidableEq, Repr

/-- The `Trainer` struct with its `float64` fields. -/
structure Trainer extends MainObject where
  Active : Bool
  RewardMultiplier : F64
  PunishmentMultiplier : F64
  ScenarioRate : Int
  Scenarios : List String
  Rewards : List String
  Punishments : List String
  Permissions : List String
  Confessions : List String
  mood : F64
  deriving DecidableEq, Repr

/-- The outcome of a method call: it returned `val` and left the trainer as
`t`, or it stopped in a run-time error with the trainer as `t`. -/
inductive Run (α : Type) where
  | ret (val : α) (t : Trainer)
  | panic (t : Trainer)

/-- The trainer after the call. -/
def Run.trainer {α : Type} : Run α → Trainer
  | .ret _ t => t
  | .panic t => t

/-- The returned value, if the call returned. -/
def Run.result {α : Type} : Run α → Option α
  | .ret v _ => some v
  | .panic _ => none

/-- `Trainer.Mood`. -/
def Trainer.Mood (t : Trainer) : F64 :=
  t.mood

/-- `Trainer.modifyMood`, lines 140 to 153: `val > 0` picks the multiplier, the
scaled delta is added, then `mood > TrainerMaxMood` and
`mood < TrainerMinMood` cut the mood, in this order. -/
def Trainer.modifyMood (b : Bounds) (t : Trainer) (val : F64) : Trainer :=
  let t1 : Trainer :=
    if F64.lt (.fin 0) val then
      { t with mood := F64.add t.mood (F64.mul val t.RewardMultiplier) }
    else
      { t with mood := F64.add t.mood (F64.mul val t.PunishmentMultiplier) }
  let t2 : Trainer :=
    if F64.lt b.TrainerMaxMood t1.mood then { t1 with mood := b.TrainerMaxMood } else t1
  if F64.lt t2.mood b.TrainerMinMood then { t2 with mood := b.TrainerMinMood } else t2

/-- The mood after lines 141 to 145 of `Trainer.modifyMood`, before the two
cuts: the old mood plus the scaled delta. -/
def Trainer.scaledSum (t : Trainer) (val : F64) : F64 :=
  if F64.lt (.fin 0) val then F64.add t.mood (F64.mul val t.RewardMultiplier)
  else F64.add t.mood (F64.mul val t.PunishmentMultiplier)

/-- The two cuts of lines 147 to 152 of `Trainer.modifyMood` applied to the
mood `s`: first `s > TrainerMaxMood`, then `s < TrainerMinMood`. -/
def cutMood (b : Bounds) (s : F64) : F64 :=
  if F64.lt (if F64.lt b.TrainerMaxMood s then b.TrainerMaxMood else s) b.TrainerMinMood
  then b.TrainerMinMood
  else if F64.lt b.TrainerMaxMood s then b.TrainerMaxMood else s

/-- `Trainer.ConfessTo`. -/
def Trainer.ConfessTo (b : Bounds) (cat : Catalog) (t : Trainer)
    (confessionID : String) : Run (Option Error) :=
  if !sliceContains t.Confessions confessionID then
    .ret (some (errors.Wrap Error.errNotFound "trainer doesn't know confession")) t
  else
    match cat.GetConfession confessionID with
    | .error err => .ret (some (errors.Wrap err "error getting confession")) t
    | .ok c => .ret none (t.modifyMood b c.Value)

/-- The expression assigned to `pb` at line 74 of `trainer.go`. -/
def pbValue (t : Trainer) (p : Permission) : F64 :=
  F64.div (F64.sub t.mood p.MinMood) (F64.sub p.CertainMood p.MinMood)

/-- `Trainer.AskPermission` together with the value of its local `pb`, which
is `none` on the paths that do not reach line 74; `r` is the value drawn by
`rand.Float64()`. -/
def Trainer.AskPermissionTraced (cat : Catalog) (t : Trainer) (permissionID : String)
    (r : F64) : Run (Bool × Option Error) × Option F64 :=
  if !sliceContains t.Permissions permissionID then
    (.ret (false, some (errors.Wrap Error.errNotFound "trainer doesn't know permission")) t,
      none)
  else
    match cat.GetPermission permissionID with
    | .error err => (.ret (false, some (errors.Wrap err "error getting permission")) t, none)
    | .ok p =>
      if F64.lt t.mood p.MinMood then (.ret (false, none) t, none)
      else if F64.lt t.mood p.CertainMood then
        let pb := pbValue t p
        if F64.le r pb then (.ret (true, none) t, some pb)
        else (.ret (true, none) t, some pb)
      else (.ret (true, none) t, none)

/-- `Trainer.AskPermission`: the result of the traced method. -/
def Trainer.AskPermission (cat : Catalog) (t : Trainer) (permissionID : String)
    (r : F64) : Run (Bool × Option Error) :=
  (t.AskPermissionTraced cat permissionID r).1

/-- `Trainer.GetPunished`. -/
def Trainer.GetPunished (cat : Catalog) (t : Trainer) (_val : F64) :
    Run (Punishment × Option Error) :=
  match t.Punishments with
  | [] => .ret (Punishment.zero, some Error.errTrainerNoPunishments) t
  | id0 :: _ =>
    match cat.GetPunishment id0 with
    | .error err => .ret (Punishment.zero, some (errors.Wrap err "error getting punishment")) t
    | .ok p => .ret (p, none) t

/-- The first loop of `Trainer.Reward`. -/
def resolveRewards (cat : Catalog) : List String → List Reward → Except Error (List Reward)
  | [], rewards => .ok rewards
  | r :: rest, rewards =>
    match cat.GetReward r with
    | .error err => .error (errors.Wrap err "error getting reward")
    | .ok rew => resolveRewards cat rest (rewards ++ [rew])

/-- The second loop of `Trainer.Reward`: the search for `smallestDeviation`. -/
def searchDeviation (val : F64) : List Reward → F64 → F64
  | [], smallestDeviation => smallestDeviation
  | r :: rest, smallestDeviation =>
    let currentDeviation := F64.sub r.Value val
    if F64.lt (F64.mul currentDeviation currentDeviation)
        (F64.mul smallestDeviation smallestDeviation) then
      searchDeviation val rest currentDeviation
    else
      searchDeviation val rest smallestDeviation

/-- The third loop of `Trainer.Reward`: the rewards whose value `==`
`smallestDeviation`. -/
def collectPossible (smallestDeviation : F64) : List Reward → List Reward → List Reward
  | [], possibleRewards => possibleRewards
  | r :: rest, possibleRewards =>
    if F64.eq r.Value smallestDeviation then
      collectPossible smallestDeviation rest (possibleRewards ++ [r])
    else
      collectPossible smallestDeviation rest possibleRewards

/-- `Trainer.Reward`; `k` is the random source of `rand.Intn(n)`, which stops
in a run-time error when `n` is not positive and otherwise gives `k % n`. -/
def Trainer.Reward (b : Bounds) (cat : Catalog) (t : Trainer) (val : F64) (k : ℕ) :
    Run (Reward × Option Error) :=
  if t.Rewards.length = 0 then
    .ret (Reward.zero, some Error.errTrainerNoRewards) t
  else
    match resolveRewards cat t.Rewards [] with
    | .error err => .ret (Reward.zero, some err) t
    | .ok rewards =>
      let smallestDeviation :=
        searchDeviation val rewards (F64.sub b.TrainerMaxMood b.TrainerMinMood)
      let possibleRewards := collectPossible smallestDeviation rewards []
      if h : 0 < possibleRewards.length then
        let chosen := k % possibleRewards.length
        let r := possibleRewards.get ⟨chosen, Nat.mod_lt k h⟩
        .ret (r, none) (t.modifyMood b r.Value)
      else
        .panic t

/-- `Trainer.triggerScenario`, returning the printed lines next to the error. -/
def Trainer.triggerScenario (b : Bounds) (cat : Catalog) (t : Trainer) :
    Run (List String × Option Error) :=
  match t.Scenarios with
  | [] => .panic t
  | id0 :: _ =>
    match cat.GetScenario id0 with
    | .error err => .ret ([], some (errors.Wrap err "error getting scenario")) t
    | .ok s => .ret (printSteps s.Steps [], none) (t.modifyMood b s.Reward)

/-- One call of a method of the trainer, with its arguments and the random
draw it consumes. -/
inductive Call where
  | ConfessTo (confessionID : String)
  | Reward (val : F64) (k : ℕ)
  | triggerScenario
  | AskPermission (permissionID : String) (r : F64)
  | GetPunished (val : F64)

/-- The trainer after one call against the given catalog. -/
def Call.exec (b : Bounds) (cat : Catalog) (t : Trainer) : Call → Trainer
  | .ConfessTo confessionID => (t.ConfessTo b cat confessionID).trainer
  | .Reward val k => (t.Reward b cat val k).trainer
  | .triggerScenario => (t.triggerScenario b cat).trainer
  | .AskPermission permissionID r => (t.AskPermission cat permissionID r).trainer
  | .GetPunished val => (t.GetPunished cat val).trainer

/-- The trainer states after each call of a sequence, in order; every call
comes with the catalog contents it sees. -/
def statesAfter (b : Bounds) : List (Catalog × Call) → Trainer → List Trainer
  | [], _ => []
  | (cat, c) :: rest, t => c.exec b cat t :: statesAfter b rest (c.exec b cat t)

/-- Every value the catalog can hand to `modifyMood` is finite. -/
def Catalog.FiniteValues (cat : Catalog) : Prop :=
  (∀ id c, cat.GetConfession id = .ok c → c.Value.Finite) ∧
  (∀ id r, cat.GetReward id = .ok r → r.Value.Finite) ∧
  (∀ id s, cat.GetScenario id = .ok s → s.Reward.Finite)

/-- The trainer after a series of `modifyMood` calls, one per delta, in list
order. -/
def modifyMoodAll (b : Bounds) (t : Trainer) (vs : List F64) : Trainer :=
  vs.foldl (fun acc v => acc.modifyMood b v) t

/-- Mood bounds `-10` and `10`. -/
def sampleBounds : Bounds := { TrainerMinMood := .fin (-10), TrainerMaxMood := .fin 10 }

/-- A catalog of `float64` records: confessions `late` (value `-2`) and `idle`
(value `0`), permissions `tv` (thresholds `0`, `10`), `odd` (`MinMood` NaN),
`any` (`MinMood` minus infinity) and `wide` (thresholds `-10`, `10`), the reward
`one`, the scenario `walk`. -/
def sampleCatalog : Catalog where
  GetConfession := fun id =>
    if id = "late" then .ok { ID := "late", Value := .fin (-2) }
    else if id = "idle" then .ok { ID := "idle", Value := .fin 0 }
    else .error (Error.catalogFailure "no such confession")
  GetPermission := fun id =>
    if id = "tv" then .ok { ID := "tv", MinMood := .fin 0, CertainMood := .fin 10 }
    else if id = "odd" then .ok { ID := "odd", MinMood := .nan, CertainMood := .fin 10 }
    else if id = "any" then .ok { ID := "any", MinMood := .ninf, CertainMood := .fin 10 }
    else if id = "wide" then .ok { ID := "wide", MinMood := .fin (-10), CertainMood := .fin 10 }
    else .error (Error.catalogFailure "no such permission")
  GetPunishment := fun id =>
    if id = "laps" then .ok { ID := "laps", Description := "run ten laps" }
    else .error (Error.catalogFailure "no such punishment")
  GetReward := fun id =>
    if id = "one" then .ok { ID := "one", Value := .fin 1 }
    else .error (Error.catalogFailure "no such reward")
  GetScenario := fun id =>
    if id = "walk" then
      .ok { ID := "walk",
            Steps := [{ Title := "Shoes", Description := "Put them on" }],
            Reward := .fin 3 }
    else .error (Error.catalogFailure "no such scenario")

/-- The `float64` number `2^1000`. -/
def hugeValue : ℚ := 2 ^ 1000

/-- A catalog with two extreme confessions: `never` has the value minus
infinity and `huge` the finite value `-2^1000`; every other lookup fails. -/
def extremeCatalog : Catalog where
  GetConfession := fun id =>
    if id = "never" then .ok { ID := "never", Value := .ninf }
    else if id = "huge" then .ok { ID := "huge", Value := .fin (-hugeValue) }
    else .error (Error.catalogFailure "no such confession")
  GetPermission := fun _ => .error (Error.catalogFailure "no such permission")
  GetPunishment := fun _ => .error (Error.catalogFailure "no such punishment")
  GetReward := fun _ => .error (Error.catalogFailure "no such reward")
  GetScenario := fun _ => .error (Error.catalogFailure "no such scenario")

/-- Mood bounds minus infinity and plus infinity. -/
def infiniteBounds : Bounds := { TrainerMinMood := .ninf, TrainerMaxMood := .pinf }

/-- Mood bounds `-0.7` and `0.1`, as the `float64` values of these literals:
`-3152519739159347 / 2^52` and `3602879701896397 / 2^55`. -/
def decimalBounds : Bounds :=
  { TrainerMinMood := .fin (-(3152519739159347 / 2 ^ 52)),
    TrainerMaxMood := .fin (3602879701896397 / 2 ^ 55) }

/-- A trainer with the given multipliers and mood. -/
def sampleTrainer (rewardMultiplier punishmentMultiplier mood : F64) : Trainer where
  ID := "coach"
  Active := true
  RewardMultiplier := rewardMultiplier
  PunishmentMultiplier := punishmentMultiplier
  ScenarioRate := 60
  Scenarios := ["walk"]
  Rewards := ["one"]
  Punishments := ["laps"]
  Permissions := ["tv", "odd", "any", "wide"]
  Confessions := ["late", "idle", "never", "huge"]
  mood := mood

end Binary64

/-! ## Shared lemmas -/

theorem sliceContains_iff (s : List String) (e : String) :
    sliceContains s e = true ↔ e ∈ s := by
  unfold sliceContains
  rw [List.any_eq_true]
  constructor
  · rintro ⟨a, ha, hae⟩
    have : a = e := by simpa using hae
    exact this ▸ ha
  · intro h
    exact ⟨e, h, by simp⟩

theorem modifyMood_mood (b : Bounds) (t : Trainer) (v : ℚ)
    (hb : b.TrainerMinMood ≤ b.TrainerMaxMood) :
    (t.modifyMood b v).mood =
      clamp (t.mood + v * (if v > 0 then t.RewardMultiplier else t.PunishmentMultiplier))
        b.TrainerMinMood b.TrainerMaxMood := by
  unfold Trainer.modifyMood clamp
  by_cases hv : v > 0
  · simp only [hv, if_true]
    by_cases h1 : t.mood + v * t.RewardMultiplier > b.TrainerMaxMood
    · have h2 : ¬ b.TrainerMaxMood < b.TrainerMinMood := not_lt.mpr hb
      simp only [h1, if_true, h2, if_false]
      rw [min_eq_right (le_of_lt h1), max_eq_right hb]
    · simp only [h1, if_false]
      rw [min_eq_left (not_lt.mp h1)]
      by_cases h3 : t.mood + v * t.RewardMultiplier < b.TrainerMinMood
      · simp only [h3, if_true]
        rw [max_eq_left (le_of_lt h3)]
      · simp only [h3, if_false]
        rw [max_eq_right (not_lt.mp h3)]
  · simp only [hv, if_false]
    by_cases h1 : t.mood + v * t.PunishmentMultiplier > b.TrainerMaxMood
    · have h2 : ¬ b.TrainerMaxMood < b.TrainerMinMood := not_lt.mpr hb
      simp only [h1, if_true, h2, if_false]
      rw [min_eq_right (le_of_lt h1), max_eq_right hb]
    · simp only [h1, if_false]
      rw [min_eq_left (not_lt.mp h1)]
      by_cases h3 : t.mood + v * t.PunishmentMultiplier < b.TrainerMinMood
      · simp only [h3, if_true]
        rw [max_eq_left (le_of_lt h3)]
      · simp only [h3, if_false]
        rw [max_eq_right (not_lt.mp h3)]

theorem modifyMood_frame (b : Bounds) (t : Trainer) (v : ℚ) :
    t.modifyMood b v = { t with mood := (t.modifyMood b v).mood } := by
  unfold Trainer.modifyMood
  simp only
  split_ifs <;> rfl

theorem clamp_self (x lo hi : ℚ) (h1 : lo ≤ x) (h2 : x ≤ hi) : clamp x lo hi = x := by
  unfold clamp
  rw [min_eq_left h2, max_eq_right h1]

theorem printSteps_eq (steps : List Step) (out : List String) :
    printSteps steps out = out ++ emittedLines steps := by
  induction steps generalizing out with
  | nil => simp [printSteps, emittedLines]
  | cons st rest ih =>
    simp only [printSteps, emittedLines]
    rw [ih]
    simp

theorem searchDeviation_unchanged (val : ℚ) (l : List Reward) (s : ℚ)
    (h : ∀ r ∈ l, ¬ (r.Value - val) ^ 2 < s ^ 2) : searchDeviation val l s = s := by
  induction l with
  | nil => rfl
  | cons r rest ih =>
    have hr : ¬ (r.Value - val) * (r.Value - val) < s * s := by
      have := h r (List.mem_cons_self _ _)
      rwa [pow_two, pow_two] at this
    simp only [searchDeviation, hr, if_false]
    exact ih (fun x hx => h x (List.mem_cons_of_mem _ hx))

theorem searchDeviation_first_min (val : ℚ) (l : List Reward) (s : ℚ)
    (h : ∃ r ∈ l, (r.Value - val) ^ 2 < s ^ 2) :
    ∃ (i : ℕ) (m : Reward), l[i]? = some m ∧
      searchDeviation val l s = m.Value - val ∧
      (m.Value - val) ^ 2 < s ^ 2 ∧
      ∀ (j : ℕ) (x : Reward), l[j]? = some x →
        (m.Value - val) ^ 2 ≤ (x.Value - val) ^ 2 ∧
        (j < i → (m.Value - val) ^ 2 < (x.Value - val) ^ 2) := by
  induction l generalizing s with
  | nil =>
    obtain ⟨r, hr, -⟩ := h
    cases hr
  | cons r rest ih =>
    by_cases hlt : (r.Value - val) ^ 2 < s ^ 2
    · have hlt' : (r.Value - val) * (r.Value - val) < s * s := by
        rwa [pow_two, pow_two] at hlt
      simp only [searchDeviation, hlt', if_true]
      by_cases hex : ∃ x ∈ rest, (x.Value - val) ^ 2 < (r.Value - val) ^ 2
      · obtain ⟨i, m, him, hres, hm, hall⟩ := ih (r.Value - val) hex
        refine ⟨i + 1, m, by simpa using him, hres, lt_trans hm hlt, ?_⟩
        intro j x hjx
        cases j with
        | zero =>
          have hx : x = r := by simpa using hjx.symm
          subst hx
          exact ⟨le_of_lt hm, fun _ => hm⟩
        | succ j =>
          have hjx' : rest[j]? = some x := by simpa using hjx
          exact ⟨(hall j x hjx').1, fun hji => (hall j x hjx').2 (Nat.lt_of_succ_lt_succ hji)⟩
      · have hno : ∀ x ∈ rest, ¬ (x.Value - val) ^ 2 < (r.Value - val) ^ 2 := by
          intro x hx hxlt
          exact hex ⟨x, hx, hxlt⟩
        refine ⟨0, r, by simp, searchDeviation_unchanged val rest _ hno, hlt, ?_⟩
        intro j x hjx
        cases j with
        | zero =>
          have hx : x = r := by simpa using hjx.symm
          subst hx
          exact ⟨le_refl _, fun hlt0 => absurd hlt0 (Nat.lt_irrefl 0)⟩
        | succ j =>
          have hjx' : rest[j]? = some x := by simpa using hjx
          have hxmem : x ∈ rest := List.getElem?_mem hjx'
          exact ⟨not_lt.mp (hno x hxmem), fun hlt0 => absurd hlt0 (Nat.not_lt_zero _)⟩
    · have hlt' : ¬ (r.Value - val) * (r.Value - val) < s * s := by
        rwa [pow_two, pow_two] at hlt
      simp only [searchDeviation, hlt', if_false]
      have hex : ∃ x ∈ rest, (x.Value - val) ^ 2 < s ^ 2 := by
        obtain ⟨x, hx, hxlt⟩ := h
        rcases List.mem_cons.mp hx with rfl | hx'
        · exact absurd hxlt hlt
        · exact ⟨x, hx', hxlt⟩
      obtain ⟨i, m, him, hres, hm, hall⟩ := ih s hex
      refine ⟨i + 1, m, by simpa using him, hres, hm, ?_⟩
      intro j x hjx
      cases j with
      | zero =>
        have hx : x = r := by simpa using hjx.symm
        subst hx
        have : (m.Value - val) ^ 2 < (x.Value - val) ^ 2 := lt_of_lt_of_le hm (not_lt.mp hlt)
        exact ⟨le_of_lt this, fun _ => this⟩
      | succ j =>
        have hjx' : rest[j]? = some x := by simpa using hjx
        exact ⟨(hall j x hjx').1, fun hji => (hall j x hjx').2 (Nat.lt_of_succ_lt_succ hji)⟩

theorem collectPossible_eq (sd : ℚ) (l acc : List Reward) :
    collectPossible sd l acc = acc ++ l.filter (fun x => decide (x.Value = sd)) := by
  induction l generalizing acc with
  | nil => simp [collectPossible]
  | cons r rest ih =>
    by_cases h : r.Value = sd
    · have hf : List.filter (fun x => decide (x.Value = sd)) (r :: rest) =
          r :: List.filter (fun x => decide (x.Value = sd)) rest :=
        List.filter_cons_of_pos (by simpa using h)
      simp only [collectPossible, h, if_true]
      rw [ih, hf]
      simp
    · have hf : List.filter (fun x => decide (x.Value = sd)) (r :: rest) =
          List.filter (fun x => decide (x.Value = sd)) rest :=
        List.filter_cons_of_neg (by simpa using h)
      simp only [collectPossible, h, if_false]
      rw [ih, hf]

theorem resolveRewards_ok (cat : Catalog) (ids : List String) (acc res : List Reward)
    (h : resolveRewards cat ids acc = .ok res) :
    ∃ rs, res = acc ++ rs ∧
      List.Forall₂ (fun id rew => cat.GetReward id = .ok rew) ids rs := by
  induction ids generalizing acc with
  | nil =>
    simp only [resolveRewards, Except.ok.injEq] at h
    exact ⟨[], by simp [h], List.Forall₂.nil⟩
  | cons id rest ih =>
    cases hc : cat.GetReward id with
    | error e => simp [resolveRewards, hc] at h
    | ok rew =>
      simp only [resolveRewards, hc] at h
      obtain ⟨rs, hrs, hall⟩ := ih _ h
      exact ⟨rew :: rs, by simp [hrs], List.Forall₂.cons hc hall⟩

theorem resolveRewards_all (cat : Catalog) (ids : List String) (acc : List Reward)
    (h : ∀ id ∈ ids, ∃ rew, cat.GetReward id = .ok rew) :
    ∃ rs, resolveRewards cat ids acc = .ok (acc ++ rs) := by
  induction ids generalizing acc with
  | nil => exact ⟨[], by simp [resolveRewards]⟩
  | cons id rest ih =>
    obtain ⟨rew, hrew⟩ := h id (List.mem_cons_self _ _)
    obtain ⟨rs, hrs⟩ := ih (acc ++ [rew]) (fun x hx => h x (List.mem_cons_of_mem _ hx))
    refine ⟨rew :: rs, ?_⟩
    simp only [resolveRewards, hrew]
    rw [hrs]
    simp

theorem resolved_mem (cat : Catalog) (ids : List String) (rs : List Reward)
    (h : List.Forall₂ (fun id rew => cat.GetReward id = .ok rew) ids rs)
    (id : String) (hid : id ∈ ids) (rew : Reward) (hrew : cat.GetReward id = .ok rew) :
    rew ∈ rs := by
  induction h with
  | nil => cases hid
  | cons hhead _ ih =>
    rcases List.mem_cons.mp hid with rfl | hid'
    · rw [hrew] at hhead
      cases hhead
      exact List.mem_cons_self _ _
    · exact List.mem_cons_of_mem _ (ih hid')

theorem reward_eval (b : Bounds) (cat : Catalog) (t : Trainer) (val : ℚ) (k : ℕ)
    (rewards : List Reward) (hne : t.Rewards ≠ [])
    (hres : resolveRewards cat t.Rewards [] = .ok rewards)
    (hpos : 0 < (collectPossible
      (searchDeviation val rewards (b.TrainerMaxMood - b.TrainerMinMood)) rewards []).length) :
    t.Reward b cat val k =
      .ret ((collectPossible
          (searchDeviation val rewards (b.TrainerMaxMood - b.TrainerMinMood)) rewards []).get
            ⟨k % _, Nat.mod_lt k hpos⟩, none)
        (t.modifyMood b ((collectPossible
          (searchDeviation val rewards (b.TrainerMaxMood - b.TrainerMinMood)) rewards []).get
            ⟨k % _, Nat.mod_lt k hpos⟩).Value) := by
  have hlen : ¬ t.Rewards.length = 0 := by
    intro h0
    exact hne (List.length_eq_zero.mp h0)
  simp only [Trainer.Reward, hlen, if_false, hres, hpos, dif_pos]

theorem resolveRewards_miss (cat : Catalog) (pre post : List String) (id : String)
    (e : Error) (acc : List Reward)
    (hpre : ∀ x ∈ pre, ∃ rew, cat.GetReward x = .ok rew)
    (hid : cat.GetReward id = .error e) :
    resolveRewards cat (pre ++ id :: post) acc =
      .error (errors.Wrap e "error getting reward") := by
  induction pre generalizing acc with
  | nil => simp [resolveRewards, hid]
  | cons x rest ih =>
    obtain ⟨rew, hrew⟩ := hpre x (List.mem_cons_self _ _)
    simp only [List.cons_append, resolveRewards, hrew]
    exact ih _ (fun y hy => hpre y (List.mem_cons_of_mem _ hy))

/-! ## C2: the mood modification rule -/

/-- C2: when `TrainerMinMood ≤ TrainerMaxMood`, `modifyMood(v)` sets the mood to
`clamp(mood + v * RewardMultiplier, TrainerMinMood, TrainerMaxMood)` for
`v > 0` and to `clamp(mood + v * PunishmentMultiplier, TrainerMinMood,
TrainerMaxMood)` for `v ≤ 0`, and changes no other field of the trainer. -/
theorem modifyMood_rule (b : Bounds) (t : Trainer) (v : ℚ)
    (hb : b.TrainerMinMood ≤ b.TrainerMaxMood) :
    (v > 0 → t.modifyMood b v =
      { t with mood := clamp (t.mood + v * t.RewardMultiplier)
                         b.TrainerMinMood b.TrainerMaxMood }) ∧
    (v ≤ 0 → t.modifyMood b v =
      { t with mood := clamp (t.mood + v * t.PunishmentMultiplier)
                         b.TrainerMinMood b.TrainerMaxMood }) := by
  constructor
  · intro hv
    rw [modifyMood_frame b t v, modifyMood_mood b t v hb, if_pos hv]
  · intro hv
    rw [modifyMood_frame b t v, modifyMood_mood b t v hb, if_neg (not_lt.mpr hv)]

theorem modifyMood_rule_witness :
    (sampleBounds.TrainerMinMood ≤ sampleBounds.TrainerMaxMood) ∧
    (((3 : ℚ) > 0 → (sampleTrainer [] 6).modifyMood sampleBounds 3 =
      { sampleTrainer [] 6 with
        mood := clamp ((sampleTrainer [] 6).mood + 3 * (sampleTrainer [] 6).RewardMultiplier)
                  sampleBounds.TrainerMinMood sampleBounds.TrainerMaxMood }) ∧
     ((3 : ℚ) ≤ 0 → (sampleTrainer [] 6).modifyMood sampleBounds 3 =
      { sampleTrainer [] 6 with
        mood := clamp ((sampleTrainer [] 6).mood + 3 * (sampleTrainer [] 6).PunishmentMultiplier)
                  sampleBounds.TrainerMinMood sampleBounds.TrainerMaxMood })) :=
  ⟨by norm_num [sampleBounds],
   modifyMood_rule sampleBounds (sampleTrainer [] 6) 3 (by norm_num [sampleBounds])⟩

/-! ## C3: allow-list enforcement -/

/-- C3: for an identifier that is not in the `Confessions` list, `ConfessTo`
returns `errNotFound` wrapped and leaves the trainer, so its mood, unchanged;
for an identifier not in the `Permissions` list, `AskPermission` returns
`false` and `errNotFound` wrapped. Both results are the same for every catalog,
whether or not it has a record for the identifier. -/
theorem allow_list_enforcement (b : Bounds) (cat : Catalog) (t : Trainer) (id : String)
    (r : ℚ) :
    (id ∉ t.Confessions →
      t.ConfessTo b cat id =
        .ret (some (errors.Wrap errNotFound "trainer doesn't know confession")) t ∧
      (t.ConfessTo b cat id).trainer.Mood = t.Mood ∧
      ∀ cat' : Catalog, t.ConfessTo b cat' id = t.ConfessTo b cat id) ∧
    (id ∉ t.Permissions →
      t.AskPermission cat id r =
        .ret (false, some (errors.Wrap errNotFound "trainer doesn't know permission")) t ∧
      ∀ cat' : Catalog, t.AskPermission cat' id r = t.AskPermission cat id r) := by
  constructor
  · intro h
    have hs : sliceContains t.Confessions id = false := by
      rw [← Bool.not_eq_true, sliceContains_iff]; exact h
    have key : ∀ c : Catalog, t.ConfessTo b c id =
        .ret (some (errors.Wrap errNotFound "trainer doesn't know confession")) t := by
      intro c; simp [Trainer.ConfessTo, hs]
    refine ⟨key cat, ?_, fun cat' => ?_⟩
    · rw [key cat]; rfl
    · rw [key cat, key cat']
  · intro h
    have hs : sliceContains t.Permissions id = false := by
      rw [← Bool.not_eq_true, sliceContains_iff]; exact h
    have key : ∀ c : Catalog, t.AskPermission c id r =
        .ret (false, some (errors.Wrap errNotFound "trainer doesn't know permission")) t := by
      intro c; simp [Trainer.AskPermission, hs]
    refine ⟨key cat, fun cat' => ?_⟩
    rw [key cat, key cat']

theorem allow_list_enforcement_witness :
    ("sweets" ∉ (sampleTrainer [] 3).Confessions) ∧
    ("games" ∉ (sampleTrainer [] 3).Permissions) ∧
    (sampleCatalog.GetConfession "sweets" = .ok { ID := "sweets", Value := -1 }) ∧
    (sampleCatalog.GetPermission "games" = .ok { ID := "games", MinMood := 2, CertainMood := 8 }) ∧
    (sampleTrainer [] 3).ConfessTo sampleBounds sampleCatalog "sweets" =
      .ret (some (errors.Wrap errNotFound "trainer doesn't know confession")) (sampleTrainer [] 3) ∧
    (sampleTrainer [] 3).AskPermission sampleCatalog "games" 0 =
      .ret (false, some (errors.Wrap errNotFound "trainer doesn't know permission"))
        (sampleTrainer [] 3) :=
  ⟨by simp [sampleTrainer], by simp [sampleTrainer], by simp [sampleCatalog],
   by simp [sampleCatalog],
   ((allow_list_enforcement sampleBounds sampleCatalog (sampleTrainer [] 3) "sweets" 0).1
      (by simp [sampleTrainer])).1,
   ((allow_list_enforcement sampleBounds sampleCatalog (sampleTrainer [] 3) "games" 0).2
      (by simp [sampleTrainer])).1⟩

/-! ## C5: the reward that is returned need not be a closest one -/

/-- C5: evaluation of `Reward(3)` on the rewards with values `1` and `4` and
bounds `-10`, `10`: for every random draw the reward with value `1` is
returned, although the resolved reward with value `4` is strictly closer to
the target `3`. -/
theorem reward_returns_farther_reward :
    (∀ k : ℕ, (sampleTrainer ["one", "four"] 0).Reward sampleBounds sampleCatalog 3 k =
      .ret ({ ID := "one", Value := 1 }, none)
        ((sampleTrainer ["one", "four"] 0).modifyMood sampleBounds 1)) ∧
    resolveRewards sampleCatalog (sampleTrainer ["one", "four"] 0).Rewards [] =
      .ok [{ ID := "one", Value := 1 }, { ID := "four", Value := 4 }] ∧
    ((4 : ℚ) - 3) ^ 2 < ((1 : ℚ) - 3) ^ 2 := by
  refine ⟨fun k => ?_, ?_, by norm_num⟩
  · simp [Trainer.Reward, sampleTrainer, sampleCatalog, sampleBounds, resolveRewards,
      searchDeviation, collectPossible]
    norm_num [Nat.mod_one]
  · simp [sampleTrainer, sampleCatalog, resolveRewards]

/-! ## C6: the candidate set can be empty -/

/-- C6: evaluation of `Reward(3)` on the single resolved reward with value `5`
and bounds `-10`, `10`: the smallest deviation is `2`, no reward has the value
`2`, the candidate set is empty and the call stops in a run-time error for
every random draw, with the mood untouched. -/
theorem reward_empty_candidates_panics :
    (∀ k : ℕ, (sampleTrainer ["five"] 0).Reward sampleBounds sampleCatalog 3 k =
      .panic (sampleTrainer ["five"] 0)) ∧
    resolveRewards sampleCatalog (sampleTrainer ["five"] 0).Rewards [] =
      .ok [{ ID := "five", Value := 5 }] ∧
    collectPossible
      (searchDeviation 3 [{ ID := "five", Value := 5 }]
        (sampleBounds.TrainerMaxMood - sampleBounds.TrainerMinMood))
      [{ ID := "five", Value := 5 }] [] = [] := by
  refine ⟨fun k => ?_, ?_, ?_⟩
  · simp [Trainer.Reward, sampleTrainer, sampleCatalog, sampleBounds, resolveRewards,
      searchDeviation, collectPossible]
    norm_num
  · simp [sampleTrainer, sampleCatalog, resolveRewards]
  · simp [sampleBounds, searchDeviation, collectPossible]
    norm_num

/-! ## C7: reward emptiness -/

/-- C7: with an empty `Rewards` list, `Reward(val)` returns the zero `Reward`
together with `errTrainerNoRewards`, leaves the trainer (mood and every other
field) unchanged, and gives this result for every catalog. -/
theorem reward_empty_list (b : Bounds) (cat : Catalog) (t : Trainer) (val : ℚ) (k : ℕ)
    (h : t.Rewards = []) :
    t.Reward b cat val k = .ret (Reward.zero, some errTrainerNoRewards) t ∧
    (t.Reward b cat val k).trainer = t ∧
    (t.Reward b cat val k).trainer.Mood = t.Mood ∧
    ∀ cat' : Catalog, t.Reward b cat' val k = t.Reward b cat val k := by
  have key : ∀ c : Catalog, t.Reward b c val k =
      .ret (Reward.zero, some errTrainerNoRewards) t := by
    intro c; simp [Trainer.Reward, h]
  refine ⟨key cat, ?_, ?_, fun cat' => ?_⟩
  · rw [key cat]; rfl
  · rw [key cat]; rfl
  · rw [key cat, key cat']

theorem reward_empty_list_witness :
    ((sampleTrainer [] 4).Rewards = []) ∧
    (sampleTrainer [] 4).Reward sampleBounds sampleCatalog 1 7 =
      .ret (Reward.zero, some errTrainerNoRewards) (sampleTrainer [] 4) :=
  ⟨rfl, (reward_empty_list sampleBounds sampleCatalog (sampleTrainer [] 4) 1 7 rfl).1⟩

/-! ## C8: a catalog miss aborts the reward -/

/-- C8: when the `Rewards` list is `pre ++ id :: post`, every identifier of
`pre` resolves and the lookup of `id` fails with `e` (so `id` is the first
unresolved identifier, at any position, whatever `post` holds), `Reward(val)`
returns the zero `Reward` with `e` wrapped and leaves the trainer, so its
mood, unchanged. -/
theorem reward_catalog_miss (b : Bounds) (cat : Catalog) (t : Trainer) (val : ℚ) (k : ℕ)
    (pre post : List String) (id : String) (e : Error)
    (hlist : t.Rewards = pre ++ id :: post)
    (hpre : ∀ x ∈ pre, ∃ rew, cat.GetReward x = .ok rew)
    (hid : cat.GetReward id = .error e) :
    t.Reward b cat val k =
      .ret (Reward.zero, some (errors.Wrap e "error getting reward")) t ∧
    (t.Reward b cat val k).trainer.Mood = t.Mood := by
  have hlen : ¬ t.Rewards.length = 0 := by simp [hlist]
  have hres : resolveRewards cat t.Rewards [] =
      .error (errors.Wrap e "error getting reward") := by
    rw [hlist]; exact resolveRewards_miss cat pre post id e [] hpre hid
  have key : t.Reward b cat val k =
      .ret (Reward.zero, some (errors.Wrap e "error getting reward")) t := by
    simp only [Trainer.Reward, hlen, if_false, hres]
  exact ⟨key, by rw [key]; rfl⟩

theorem reward_catalog_miss_witness :
    ((sampleTrainer ["one", "four", "nine"] 4).Rewards = ["one", "four"] ++ "nine" :: []) ∧
    (∀ x ∈ ["one", "four"], ∃ rew, sampleCatalog.GetReward x = .ok rew) ∧
    (sampleCatalog.GetReward "nine" = .error (Error.catalogFailure "no such reward")) ∧
    (sampleTrainer ["one", "four", "nine"] 4).Reward sampleBounds sampleCatalog 1 0 =
      .ret (Reward.zero,
        some (errors.Wrap (Error.catalogFailure "no such reward") "error getting reward"))
        (sampleTrainer ["one", "four", "nine"] 4) :=
  ⟨rfl, by simp [sampleCatalog], by simp [sampleCatalog],
   (reward_catalog_miss sampleBounds sampleCatalog (sampleTrainer ["one", "four", "nine"] 4)
      1 0 ["one", "four"] [] "nine" (Error.catalogFailure "no such reward") rfl
      (by simp [sampleCatalog]) (by simp [sampleCatalog])).1⟩

/-! ## C9: punishment selection -/

/-- C9: `GetPunished(val)` returns `errTrainerNoPunishments`, with the zero
`Punishment`, exactly when the `Punishments` list is empty; otherwise it gives
the catalog result for `Punishments[0]`: the record with a nil error, or the
zero `Punishment` with the catalog error wrapped. The result does not depend
on `val` and the trainer, so its mood, is unchanged. -/
theorem getPunished_selection (cat : Catalog) (t : Trainer) (val : ℚ) :
    ((t.GetPunished cat val).result.map Prod.snd = some (some errTrainerNoPunishments) ↔
      t.Punishments = []) ∧
    (t.Punishments = [] →
      t.GetPunished cat val = .ret (Punishment.zero, some errTrainerNoPunishments) t) ∧
    (∀ (id0 : String) (rest : List String), t.Punishments = id0 :: rest →
      (∀ p, cat.GetPunishment id0 = .ok p → t.GetPunished cat val = .ret (p, none) t) ∧
      (∀ e, cat.GetPunishment id0 = .error e →
        t.GetPunished cat val =
          .ret (Punishment.zero, some (errors.Wrap e "error getting punishment")) t)) ∧
    (∀ val' : ℚ, t.GetPunished cat val' = t.GetPunished cat val) ∧
    (t.GetPunished cat val).trainer = t ∧
    (t.GetPunished cat val).trainer.Mood = t.Mood := by
  cases hP : t.Punishments with
  | nil =>
    have key : ∀ v : ℚ, t.GetPunished cat v =
        .ret (Punishment.zero, some errTrainerNoPunishments) t := by
      intro v; simp [Trainer.GetPunished, hP]
    refine ⟨?_, fun _ => key val, ?_, fun val' => ?_, ?_, ?_⟩
    · rw [key val]; simp [Run.result]
    · intro id0 rest h; cases h
    · rw [key val, key val']
    · rw [key val]; rfl
    · rw [key val]; rfl
  | cons id0 rest =>
    cases hc : cat.GetPunishment id0 with
    | error e =>
      have key : ∀ v : ℚ, t.GetPunished cat v =
          .ret (Punishment.zero, some (errors.Wrap e "error getting punishment")) t := by
        intro v; simp [Trainer.GetPunished, hP, hc]
      refine ⟨?_, fun h => (by cases h), ?_, fun val' => ?_, ?_, ?_⟩
      · rw [key val]; simp [Run.result, errors.Wrap]
      · intro id1 rest1 h
        obtain ⟨rfl, -⟩ := List.cons.inj h
        refine ⟨fun p hp => ?_, fun e1 he1 => ?_⟩
        · rw [hc] at hp; cases hp
        · rw [hc] at he1; cases he1; exact key val
      · rw [key val, key val']
      · rw [key val]; rfl
      · rw [key val]; rfl
    | ok p =>
      have key : ∀ v : ℚ, t.GetPunished cat v = .ret (p, none) t := by
        intro v; simp [Trainer.GetPunished, hP, hc]
      refine ⟨?_, fun h => (by cases h), ?_, fun val' => ?_, ?_, ?_⟩
      · rw [key val]; simp [Run.result]
      · intro id1 rest1 h
        obtain ⟨rfl, -⟩ := List.cons.inj h
        refine ⟨fun p1 hp => ?_, fun e1 he1 => ?_⟩
        · rw [hc] at hp; cases hp; exact key val
        · rw [hc] at he1; cases he1
      · rw [key val, key val']
      · rw [key val]; rfl
      · rw [key val]; rfl

theorem getPunished_selection_witness :
    ((sampleTrainer [] 4).Punishments = "laps" :: ["dishes"]) ∧
    (sampleCatalog.GetPunishment "laps" = .ok { ID := "laps", Description := "run ten laps" }) ∧
    (sampleTrainer [] 4).GetPunished sampleCatalog 3 =
      .ret ({ ID := "laps", Description := "run ten laps" }, none) (sampleTrainer [] 4) :=
  ⟨rfl, by simp [sampleCatalog],
   ((getPunished_selection sampleCatalog (sampleTrainer [] 4) 3).2.2.1 "laps" ["dishes"] rfl).1
     { ID := "laps", Description := "run ten laps" } (by simp [sampleCatalog])⟩

/-! ## C10: the outcome of a confession -/

/-- C10: for an allow-listed confession that the catalog resolves to `c`,
`ConfessTo` returns nil and the trainer is the one `modifyMood(c.Value)`
gives, whose mood is `clamp(mood + c.Value * multiplier)` when
`TrainerMinMood ≤ TrainerMaxMood`; when the catalog fails with `e` it returns
`e` wrapped and the trainer is unchanged. `ConfessTo` always returns, and its
error is non-nil exactly when the identifier is not allow-listed or the
catalog lookup fails. -/
theorem confessTo_outcome (b : Bounds) (cat : Catalog) (t : Trainer) (confessionID : String) :
    (confessionID ∈ t.Confessions →
      (∀ c, cat.GetConfession confessionID = .ok c →
        t.ConfessTo b cat confessionID = .ret none (t.modifyMood b c.Value) ∧
        (b.TrainerMinMood ≤ b.TrainerMaxMood →
          (t.ConfessTo b cat confessionID).trainer.Mood =
            clamp (t.mood + c.Value *
                (if c.Value > 0 then t.RewardMultiplier else t.PunishmentMultiplier))
              b.TrainerMinMood b.TrainerMaxMood)) ∧
      (∀ e, cat.GetConfession confessionID = .error e →
        t.ConfessTo b cat confessionID =
          .ret (some (errors.Wrap e "error getting confession")) t ∧
        (t.ConfessTo b cat confessionID).trainer.Mood = t.Mood)) ∧
    (∃ err, (t.ConfessTo b cat confessionID).result = some err) ∧
    ((∃ e, (t.ConfessTo b cat confessionID).result = some (some e)) ↔
      (confessionID ∉ t.Confessions ∨ ∃ e, cat.GetConfession confessionID = .error e)) := by
  by_cases hmem : confessionID ∈ t.Confessions
  · have hs : sliceContains t.Confessions confessionID = true :=
      (sliceContains_iff _ _).mpr hmem
    cases hc : cat.GetConfession confessionID with
    | error e =>
      have key : t.ConfessTo b cat confessionID =
          .ret (some (errors.Wrap e "error getting confession")) t := by
        simp [Trainer.ConfessTo, hs, hc]
      refine ⟨fun _ => ⟨fun c h => (by cases h), fun e1 he1 => ?_⟩, ?_, ?_⟩
      · cases he1; exact ⟨key, by rw [key]; rfl⟩
      · rw [key]; exact ⟨_, rfl⟩
      · rw [key]
        constructor
        · intro _; exact Or.inr ⟨e, rfl⟩
        · intro _; exact ⟨_, rfl⟩
    | ok c =>
      have key : t.ConfessTo b cat confessionID = .ret none (t.modifyMood b c.Value) := by
        simp [Trainer.ConfessTo, hs, hc]
      refine ⟨fun _ => ⟨fun c1 h => ?_, fun e1 he1 => by cases he1⟩, ?_, ?_⟩
      · cases h
        refine ⟨key, fun hb => ?_⟩
        rw [key]
        exact modifyMood_mood b t c.Value hb
      · rw [key]; exact ⟨_, rfl⟩
      · rw [key]
        constructor
        · rintro ⟨e, he⟩; simp [Run.result] at he
        · rintro (h | ⟨e, he⟩)
          · exact absurd hmem h
          · cases he
  · have hs : sliceContains t.Confessions confessionID = false := by
      rw [← Bool.not_eq_true, sliceContains_iff]; exact hmem
    have key : t.ConfessTo b cat confessionID =
        .ret (some (errors.Wrap errNotFound "trainer doesn't know confession")) t := by
      simp [Trainer.ConfessTo, hs]
    refine ⟨fun h => absurd h hmem, ?_, ?_⟩
    · rw [key]; exact ⟨_, rfl⟩
    · rw [key]
      constructor
      · intro _; exact Or.inl hmem
      · intro _; exact ⟨_, rfl⟩

theorem confessTo_outcome_witness :
    ("late" ∈ (sampleTrainer [] 9).Confessions) ∧
    (sampleCatalog.GetConfession "late" = .ok { ID := "late", Value := -2 }) ∧
    (sampleTrainer [] 9).ConfessTo sampleBounds sampleCatalog "late" =
      .ret none ((sampleTrainer [] 9).modifyMood sampleBounds (-2)) :=
  ⟨by simp [sampleTrainer], by simp [sampleCatalog],
   (((confessTo_outcome sampleBounds sampleCatalog (sampleTrainer [] 9) "late").1
      (by simp [sampleTrainer])).1 { ID := "late", Value := -2 }
      (by simp [sampleCatalog])).1⟩

/-! ## C12: the scenario trigger -/

/-- C12: when the first identifier of a non-empty `Scenarios` list resolves to
`s`, `triggerScenario` returns nil, prints exactly the title and description
of each step of `s` in list order, and leaves the trainer `modifyMood(s.Reward)`
gives; when the catalog fails with `e` it returns `e` wrapped, prints nothing
and leaves the trainer unchanged. With two steps, `s.Reward = 3`,
`RewardMultiplier = 2`, mood `0` and `6` within the bounds the final mood is
`6`. -/
theorem triggerScenario_outcome (b : Bounds) (cat : Catalog) (t : Trainer)
    (id0 : String) (rest : List String) (hlist : t.Scenarios = id0 :: rest) :
    (∀ s, cat.GetScenario id0 = .ok s →
      t.triggerScenario b cat = .ret (emittedLines s.Steps, none) (t.modifyMood b s.Reward) ∧
      (∀ st1 st2 : Step, s.Steps = [st1, st2] → s.Reward = 3 → t.RewardMultiplier = 2 →
        t.mood = 0 → b.TrainerMinMood ≤ 6 → 6 ≤ b.TrainerMaxMood →
        t.triggerScenario b cat =
          .ret ([st1.Title, st1.Description, st2.Title, st2.Description], none)
            { t with mood := 6 })) ∧
    (∀ e, cat.GetScenario id0 = .error e →
      t.triggerScenario b cat =
        .ret ([], some (errors.Wrap e "error getting scenario")) t ∧
      (t.triggerScenario b cat).trainer.Mood = t.Mood) := by
  constructor
  · intro s hs
    have key : t.triggerScenario b cat =
        .ret (emittedLines s.Steps, none) (t.modifyMood b s.Reward) := by
      simp [Trainer.triggerScenario, hlist, hs, printSteps_eq]
    refine ⟨key, fun st1 st2 hsteps hrew hR hm hlo hhi => ?_⟩
    rw [key, hsteps]
    have hb : b.TrainerMinMood ≤ b.TrainerMaxMood := le_trans hlo hhi
    have hmood : (t.modifyMood b s.Reward).mood = 6 := by
      rw [modifyMood_mood b t s.Reward hb, hrew, hR, hm]
      norm_num
      exact clamp_self 6 _ _ hlo hhi
    rw [modifyMood_frame b t s.Reward, hmood]
    rfl
  · intro e he
    have key : t.triggerScenario b cat =
        .ret ([], some (errors.Wrap e "error getting scenario")) t := by
      simp [Trainer.triggerScenario, hlist, he]
    exact ⟨key, by rw [key]; rfl⟩

theorem triggerScenario_outcome_witness :
    ((sampleTrainer [] 0).Scenarios = "walk" :: []) ∧
    (sampleTrainer [] 0).triggerScenario sampleBounds sampleCatalog =
      .ret (["Shoes", "Put them on", "Door", "Go outside"], none)
        { sampleTrainer [] 0 with mood := 6 } :=
  ⟨rfl,
   ((triggerScenario_outcome sampleBounds sampleCatalog (sampleTrainer [] 0) "walk" [] rfl).1
      { ID := "walk",
        Steps := [{ Title := "Shoes", Description := "Put them on" },
                  { Title := "Door", Description := "Go outside" }],
        Reward := 3 }
      (by simp [sampleCatalog])).2
      { Title := "Shoes", Description := "Put them on" }
      { Title := "Door", Description := "Go outside" } rfl rfl rfl rfl
      (by norm_num [sampleBounds]) (by norm_num [sampleBounds])⟩

/-! ## C14: read-only operations -/

/-- C14: `Mood()` returns the current mood, and `AskPermission` and
`GetPunished` always return and leave the trainer, its mood and every other
field, unchanged, whether they succeed or fail; `Mood()` has a value receiver
and no result but the mood. -/
theorem read_only_operations (cat : Catalog) (t : Trainer) (permissionID : String)
    (r val : ℚ) :
    t.Mood = t.mood ∧
    (∃ res, t.AskPermission cat permissionID r = .ret res t) ∧
    (t.AskPermission cat permissionID r).trainer = t ∧
    (∃ res, t.GetPunished cat val = .ret res t) ∧
    (t.GetPunished cat val).trainer = t := by
  have hA : ∃ res, t.AskPermission cat permissionID r = .ret res t := by
    unfold Trainer.AskPermission
    split
    · exact ⟨_, rfl⟩
    · split
      · exact ⟨_, rfl⟩
      · simp only
        split_ifs <;> exact ⟨_, rfl⟩
  have hG : ∃ res, t.GetPunished cat val = .ret res t := by
    unfold Trainer.GetPunished
    split
    · exact ⟨_, rfl⟩
    · split <;> exact ⟨_, rfl⟩
  obtain ⟨ra, hra⟩ := hA
  obtain ⟨rg, hrg⟩ := hG
  refine ⟨rfl, ⟨ra, hra⟩, ?_, ⟨rg, hrg⟩, ?_⟩
  · rw [hra]; rfl
  · rw [hrg]; rfl

/-! ## C15: the result of the deviation search -/

/-- C15: after the search loop over the resolved rewards, started from
`TrainerMaxMood - TrainerMinMood`: when some reward has
`(value - val)^2 < (TrainerMaxMood - TrainerMinMood)^2`, `smallestDeviation`
is `value_i - val` for the first index `i` in list order that attains the
minimum of `(value - val)^2`, so its square is that minimum; otherwise it is
still `TrainerMaxMood - TrainerMinMood`. -/
theorem searchDeviation_result (b : Bounds) (val : ℚ) (rewards : List Reward) :
    ((∃ r ∈ rewards,
        (r.Value - val) ^ 2 < (b.TrainerMaxMood - b.TrainerMinMood) ^ 2) →
      ∃ (i : ℕ) (m : Reward), rewards[i]? = some m ∧
        searchDeviation val rewards (b.TrainerMaxMood - b.TrainerMinMood) = m.Value - val ∧
        (∀ (j : ℕ) (x : Reward), rewards[j]? = some x →
          (m.Value - val) ^ 2 ≤ (x.Value - val) ^ 2 ∧
          (j < i → (m.Value - val) ^ 2 < (x.Value - val) ^ 2)) ∧
        (∀ x ∈ rewards,
          (searchDeviation val rewards (b.TrainerMaxMood - b.TrainerMinMood)) ^ 2 ≤
            (x.Value - val) ^ 2)) ∧
    ((¬ ∃ r ∈ rewards,
        (r.Value - val) ^ 2 < (b.TrainerMaxMood - b.TrainerMinMood) ^ 2) →
      searchDeviation val rewards (b.TrainerMaxMood - b.TrainerMinMood) =
        b.TrainerMaxMood - b.TrainerMinMood) := by
  constructor
  · intro h
    obtain ⟨i, m, him, hres, -, hall⟩ := searchDeviation_first_min val rewards _ h
    refine ⟨i, m, him, hres, hall, fun x hx => ?_⟩
    obtain ⟨j, hj⟩ := List.getElem?_of_mem hx
    rw [hres]
    exact (hall j x hj).1
  · intro h
    exact searchDeviation_unchanged val rewards _ (fun r hr hlt => h ⟨r, hr, hlt⟩)

theorem searchDeviation_result_witness :
    (∃ r ∈ [({ ID := "five", Value := 5 } : Reward), { ID := "four", Value := 4 },
              { ID := "two", Value := 2 }],
        (r.Value - 3) ^ 2 < (sampleBounds.TrainerMaxMood - sampleBounds.TrainerMinMood) ^ 2) ∧
    ∃ (i : ℕ) (m : Reward),
      [({ ID := "five", Value := 5 } : Reward), { ID := "four", Value := 4 },
        { ID := "two", Value := 2 }][i]? = some m ∧
      searchDeviation 3
        [({ ID := "five", Value := 5 } : Reward), { ID := "four", Value := 4 },
          { ID := "two", Value := 2 }]
        (sampleBounds.TrainerMaxMood - sampleBounds.TrainerMinMood) = m.Value - 3 ∧
      (∀ (j : ℕ) (x : Reward),
        [({ ID := "five", Value := 5 } : Reward), { ID := "four", Value := 4 },
          { ID := "two", Value := 2 }][j]? = some x →
          (m.Value - 3) ^ 2 ≤ (x.Value - 3) ^ 2 ∧
          (j < i → (m.Value - 3) ^ 2 < (x.Value - 3) ^ 2)) ∧
      (∀ x ∈ [({ ID := "five", Value := 5 } : Reward), { ID := "four", Value := 4 },
                { ID := "two", Value := 2 }],
        (searchDeviation 3
          [({ ID := "five", Value := 5 } : Reward), { ID := "four", Value := 4 },
            { ID := "two", Value := 2 }]
          (sampleBounds.TrainerMaxMood - sampleBounds.TrainerMinMood)) ^ 2 ≤
            (x.Value - 3) ^ 2) :=
  ⟨⟨{ ID := "four", Value := 4 }, by simp, by norm_num [sampleBounds]⟩,
   (searchDeviation_result sampleBounds 3
      [{ ID := "five", Value := 5 }, { ID := "four", Value := 4 }, { ID := "two", Value := 2 }]).1
     ⟨{ ID := "four", Value := 4 }, by simp, by norm_num [sampleBounds]⟩⟩

/-! ## C16: the literal candidate set -/

/-- C16: whenever `Reward(val)` returns a reward `r` with a nil error, the
identifiers all resolved, `r` is one of the resolved rewards and its value
equals the signed `smallestDeviation` found by the search, the candidate set
is exactly the sub-list, in list order, of the resolved rewards with that
value, the pick index is within that sub-list, and the new trainer is the one
`modifyMood(r.Value)` gives. -/
theorem reward_literal_candidates (b : Bounds) (cat : Catalog) (t : Trainer) (val : ℚ)
    (k : ℕ) (r : Reward) (t' : Trainer)
    (h : t.Reward b cat val k = .ret (r, none) t') :
    ∃ rewards, resolveRewards cat t.Rewards [] = .ok rewards ∧
      List.Forall₂ (fun id rew => cat.GetReward id = .ok rew) t.Rewards rewards ∧
      r ∈ rewards ∧
      r.Value = searchDeviation val rewards (b.TrainerMaxMood - b.TrainerMinMood) ∧
      collectPossible
          (searchDeviation val rewards (b.TrainerMaxMood - b.TrainerMinMood)) rewards [] =
        rewards.filter (fun x => decide (x.Value =
          searchDeviation val rewards (b.TrainerMaxMood - b.TrainerMinMood))) ∧
      k % (rewards.filter (fun x => decide (x.Value =
          searchDeviation val rewards (b.TrainerMaxMood - b.TrainerMinMood)))).length <
        (rewards.filter (fun x => decide (x.Value =
          searchDeviation val rewards (b.TrainerMaxMood - b.TrainerMinMood)))).length ∧
      (rewards.filter (fun x => decide (x.Value =
          searchDeviation val rewards (b.TrainerMaxMood - b.TrainerMinMood))))[
        k % (rewards.filter (fun x => decide (x.Value =
          searchDeviation val rewards (b.TrainerMaxMood - b.TrainerMinMood)))).length]? =
        some r ∧
      t' = t.modifyMood b r.Value := by
  by_cases hne : t.Rewards = []
  · simp [Trainer.Reward, hne] at h
  · have hlen : ¬ t.Rewards.length = 0 := fun h0 => hne (List.length_eq_zero.mp h0)
    cases hres : resolveRewards cat t.Rewards [] with
    | error e => simp [Trainer.Reward, hlen, hres] at h
    | ok rewards =>
      obtain ⟨rs, hrs, hF⟩ := resolveRewards_ok cat t.Rewards [] rewards hres
      have hrs' : rs = rewards := by simpa using hrs.symm
      subst hrs'
      have hc := collectPossible_eq
        (searchDeviation val rs (b.TrainerMaxMood - b.TrainerMinMood)) rs []
      rw [List.nil_append] at hc
      by_cases hpos : 0 < (collectPossible
          (searchDeviation val rs (b.TrainerMaxMood - b.TrainerMinMood)) rs []).length
      · rw [reward_eval b cat t val k rs hne hres hpos] at h
        injection h with h1 h2
        have hr : (collectPossible
            (searchDeviation val rs (b.TrainerMaxMood - b.TrainerMinMood)) rs []).get
              ⟨k % _, Nat.mod_lt k hpos⟩ = r := (Prod.mk.inj h1).1
        have hget : (collectPossible
            (searchDeviation val rs (b.TrainerMaxMood - b.TrainerMinMood)) rs [])[
              k % (collectPossible
                (searchDeviation val rs (b.TrainerMaxMood - b.TrainerMinMood)) rs []).length]? =
            some r := by
          rw [List.getElem?_eq_getElem (Nat.mod_lt k hpos)]
          exact congrArg some hr
        have hmem : r ∈ collectPossible
            (searchDeviation val rs (b.TrainerMaxMood - b.TrainerMinMood)) rs [] :=
          List.getElem?_mem hget
        rw [hc] at hget hmem hpos
        have hmem' := List.mem_filter.mp hmem
        refine ⟨rs, rfl, hF, hmem'.1, by simpa using hmem'.2, hc, Nat.mod_lt k hpos, hget, ?_⟩
        rw [← h2, hr]
      · simp [Trainer.Reward, hlen, hres, hpos] at h

theorem reward_literal_candidates_witness :
    ((sampleTrainer ["one", "four"] 0).Reward sampleBounds sampleCatalog 3 0 =
      .ret ({ ID := "one", Value := 1 }, none)
        ((sampleTrainer ["one", "four"] 0).modifyMood sampleBounds 1)) ∧
    ∃ rewards,
      resolveRewards sampleCatalog (sampleTrainer ["one", "four"] 0).Rewards [] = .ok rewards ∧
      (({ ID := "one", Value := 1 } : Reward) ∈ rewards) ∧
      (({ ID := "one", Value := 1 } : Reward).Value =
        searchDeviation 3 rewards
          (sampleBounds.TrainerMaxMood - sampleBounds.TrainerMinMood)) :=
  have h : (sampleTrainer ["one", "four"] 0).Reward sampleBounds sampleCatalog 3 0 =
      .ret ({ ID := "one", Value := 1 }, none)
        ((sampleTrainer ["one", "four"] 0).modifyMood sampleBounds 1) := by
    simp [Trainer.Reward, sampleTrainer, sampleCatalog, sampleBounds, resolveRewards,
      searchDeviation, collectPossible]
    norm_num
  ⟨h,
   (reward_literal_candidates sampleBounds sampleCatalog (sampleTrainer ["one", "four"] 0) 3 0
      { ID := "one", Value := 1 } _ h).imp
     (fun _ hx => ⟨hx.1, hx.2.2.1, hx.2.2.2.1⟩)⟩

/-! ## C18: the literal selection for the target 0 -/

/-- C18: for a non-empty `Rewards` list whose identifiers all resolve and in
which some reward has `value^2 < (TrainerMaxMood - TrainerMinMood)^2`,
`Reward(0)` has a non-empty candidate set, the candidates are exactly the
resolved rewards whose value equals that of the first minimiser of `value^2`
in list order, and for every random draw it returns one of them, which
minimises `(value - 0)^2` over the resolved rewards. -/
theorem reward_zero_target (b : Bounds) (cat : Catalog) (t : Trainer)
    (hne : t.Rewards ≠ [])
    (hall : ∀ id ∈ t.Rewards, ∃ rew, cat.GetReward id = .ok rew)
    (hsome : ∃ id ∈ t.Rewards, ∃ rew, cat.GetReward id = .ok rew ∧
      rew.Value ^ 2 < (b.TrainerMaxMood - b.TrainerMinMood) ^ 2) :
    ∃ rewards, resolveRewards cat t.Rewards [] = .ok rewards ∧
      List.Forall₂ (fun id rew => cat.GetReward id = .ok rew) t.Rewards rewards ∧
      ∃ (i : ℕ) (m : Reward), rewards[i]? = some m ∧
        (∀ (j : ℕ) (x : Reward), rewards[j]? = some x →
          m.Value ^ 2 ≤ x.Value ^ 2 ∧ (j < i → m.Value ^ 2 < x.Value ^ 2)) ∧
        collectPossible
            (searchDeviation 0 rewards (b.TrainerMaxMood - b.TrainerMinMood)) rewards [] =
          rewards.filter (fun x => decide (x.Value = m.Value)) ∧
        rewards.filter (fun x => decide (x.Value = m.Value)) ≠ [] ∧
        ∀ k : ℕ, ∃ r, t.Reward b cat 0 k = .ret (r, none) (t.modifyMood b r.Value) ∧
          r ∈ rewards.filter (fun x => decide (x.Value = m.Value)) ∧
          ∀ x ∈ rewards, (r.Value - 0) ^ 2 ≤ (x.Value - 0) ^ 2 := by
  obtain ⟨rs, hrs⟩ := resolveRewards_all cat t.Rewards [] hall
  rw [List.nil_append] at hrs
  obtain ⟨rs', hrs', hF⟩ := resolveRewards_ok cat t.Rewards [] rs hrs
  have hrs'' : rs' = rs := by simpa using hrs'.symm
  subst hrs''
  have hex : ∃ r ∈ rs', (r.Value - 0) ^ 2 < (b.TrainerMaxMood - b.TrainerMinMood) ^ 2 := by
    obtain ⟨id, hid, rew, hrew, hlt⟩ := hsome
    exact ⟨rew, resolved_mem cat t.Rewards rs' hF id hid rew hrew, by simpa using hlt⟩
  obtain ⟨i, m, him, hres, -, hmin⟩ := searchDeviation_first_min 0 rs' _ hex
  simp only [sub_zero] at hres hmin
  have hc0 := collectPossible_eq
    (searchDeviation 0 rs' (b.TrainerMaxMood - b.TrainerMinMood)) rs' []
  rw [List.nil_append] at hc0
  have hc : collectPossible
      (searchDeviation 0 rs' (b.TrainerMaxMood - b.TrainerMinMood)) rs' [] =
      rs'.filter (fun x => decide (x.Value = m.Value)) := by
    rw [hc0, hres]
  have hm_mem : m ∈ rs'.filter (fun x => decide (x.Value = m.Value)) :=
    List.mem_filter.mpr ⟨List.getElem?_mem him, by simp⟩
  have hne' : rs'.filter (fun x => decide (x.Value = m.Value)) ≠ [] :=
    List.ne_nil_of_mem hm_mem
  refine ⟨rs', hrs, hF, i, m, him, hmin, hc, hne', fun k => ?_⟩
  have hpos : 0 < (collectPossible
      (searchDeviation 0 rs' (b.TrainerMaxMood - b.TrainerMinMood)) rs' []).length := by
    rw [hc]; exact List.length_pos.mpr hne'
  have he := reward_eval b cat t 0 k rs' hne hrs hpos
  have hmem : ∀ x ∈ collectPossible
      (searchDeviation 0 rs' (b.TrainerMaxMood - b.TrainerMinMood)) rs' [],
      x ∈ rs'.filter (fun x => decide (x.Value = m.Value)) := by
    intro x hx
    rw [hc] at hx
    exact hx
  refine ⟨_, he, hmem _ (List.get_mem _ _ _), fun x hx => ?_⟩
  have hval := (List.mem_filter.mp (hmem _ (List.get_mem _ (k % _) (Nat.mod_lt k hpos)))).2
  have hval' : ((collectPossible
      (searchDeviation 0 rs' (b.TrainerMaxMood - b.TrainerMinMood)) rs' []).get
        ⟨k % _, Nat.mod_lt k hpos⟩).Value = m.Value := by simpa using hval
  obtain ⟨j, hj⟩ := List.getElem?_of_mem hx
  rw [hval', sub_zero, sub_zero]
  exact (hmin j x hj).1

theorem reward_zero_target_witness :
    ((sampleTrainer ["four", "one"] 0).Rewards ≠ []) ∧
    (∀ id ∈ (sampleTrainer ["four", "one"] 0).Rewards,
      ∃ rew, sampleCatalog.GetReward id = .ok rew) ∧
    ∃ rewards,
      resolveRewards sampleCatalog (sampleTrainer ["four", "one"] 0).Rewards [] = .ok rewards ∧
      ∃ (i : ℕ) (m : Reward), rewards[i]? = some m ∧
        rewards.filter (fun x => decide (x.Value = m.Value)) ≠ [] ∧
        ∀ k : ℕ, ∃ r, (sampleTrainer ["four", "one"] 0).Reward sampleBounds sampleCatalog 0 k =
            .ret (r, none) ((sampleTrainer ["four", "one"] 0).modifyMood sampleBounds r.Value) ∧
          ∀ x ∈ rewards, (r.Value - 0) ^ 2 ≤ (x.Value - 0) ^ 2 :=
  ⟨by simp [sampleTrainer], by simp [sampleTrainer, sampleCatalog],
   (reward_zero_target sampleBounds sampleCatalog (sampleTrainer ["four", "one"] 0)
      (by simp [sampleTrainer]) (by simp [sampleTrainer, sampleCatalog])
      ⟨"one", by simp [sampleTrainer], { ID := "one", Value := 1 },
        by simp [sampleCatalog], by norm_num [sampleBounds]⟩).imp
     (fun _ hx => ⟨hx.1, hx.2.2.imp (fun _ hi => hi.imp (fun _ hm =>
        ⟨hm.1, hm.2.2.2.1, fun k => (hm.2.2.2.2 k).imp (fun _ hr => ⟨hr.1, hr.2.2⟩)⟩))⟩)⟩

/-! ## The binary64 layer: lemmas and claims -/

namespace Binary64

/-! ## Binary64: comparisons and the two cuts -/

theorem f64_lt_nan_left (x : F64) : F64.lt .nan x = false := by
  cases x <;> rfl

theorem f64_lt_nan_right (x : F64) : F64.lt x .nan = false := by
  cases x <;> rfl

theorem f64_le_nan_left (x : F64) : F64.le .nan x = false := by
  cases x <;> rfl

theorem f64_le_nan_right (x : F64) : F64.le x .nan = false := by
  cases x <;> rfl

theorem f64_not_lt_iff_le (x y : F64) (hx : x ≠ .nan) (hy : y ≠ .nan) :
    F64.lt x y = false ↔ F64.le y x = true := by
  cases x <;> cases y <;> simp_all [F64.lt, F64.le]

theorem f64_le_of_lt (x y : F64) (h : F64.lt x y = true) : F64.le x y = true := by
  cases x <;> cases y <;> simp_all [F64.lt, F64.le]
  exact le_of_lt h

theorem f64_le_refl (x : F64) (hx : x ≠ .nan) : F64.le x x = true := by
  cases x <;> simp_all [F64.le]

theorem f64_le_trans (x y z : F64) (h1 : F64.le x y = true) (h2 : F64.le y z = true) :
    F64.le x z = true := by
  cases x <;> cases y <;> cases z <;> simp_all [F64.le]
  exact le_trans h1 h2

theorem modifyMood_mood64 (b : Bounds) (t : Trainer) (v : F64) :
    (t.modifyMood b v).mood = cutMood b (t.scaledSum v) := by
  unfold Trainer.modifyMood Trainer.scaledSum cutMood
  simp only
  split_ifs <;> rfl

theorem cutMood_nan (b : Bounds) : cutMood b .nan = .nan := by
  simp [cutMood, f64_lt_nan_right, f64_lt_nan_left]

theorem cutMood_inBounds (b : Bounds) (s : F64)
    (hb : F64.le b.TrainerMinMood b.TrainerMaxMood = true) (h : s ≠ .nan) :
    F64.le b.TrainerMinMood (cutMood b s) = true ∧
    F64.le (cutMood b s) b.TrainerMaxMood = true := by
  unfold cutMood
  generalize b.TrainerMinMood = lo at hb
  generalize b.TrainerMaxMood = hi at hb
  cases s <;> cases lo <;> cases hi <;> simp_all [F64.lt, F64.le] <;>
    (split_ifs <;> simp_all [F64.lt, F64.le])

theorem modifyMood_frame64 (b : Bounds) (t : Trainer) (v : F64) :
    t.modifyMood b v = { t with mood := (t.modifyMood b v).mood } := by
  unfold Trainer.modifyMood
  simp only
  split_ifs <;> rfl

theorem modifyMood_nan64 (b : Bounds) (t : Trainer) (v : F64) (h : t.scaledSum v = .nan) :
    (t.modifyMood b v).mood = .nan := by
  rw [modifyMood_mood64, h, cutMood_nan]

theorem modifyMood_inBounds64 (b : Bounds) (t : Trainer) (v : F64)
    (hb : F64.le b.TrainerMinMood b.TrainerMaxMood = true) (h : t.scaledSum v ≠ .nan) :
    F64.le b.TrainerMinMood (t.modifyMood b v).mood = true ∧
    F64.le (t.modifyMood b v).mood b.TrainerMaxMood = true := by
  rw [modifyMood_mood64]
  exact cutMood_inBounds b _ hb h

theorem round_ne_nan (q : ℚ) : round q ≠ .nan := by
  unfold round
  split_ifs <;> simp

theorem mul_ne_nan_of_finite (x y : F64) (hx : x.Finite) (hy : y.Finite) :
    F64.mul x y ≠ .nan := by
  cases x <;> cases y <;> simp_all [F64.Finite, F64.mul, round_ne_nan]

theorem add_ne_nan_of_finite (x y : F64) (hx : x.Finite) (hy : y ≠ .nan) :
    F64.add x y ≠ .nan := by
  cases x <;> cases y <;> simp_all [F64.Finite, F64.add, round_ne_nan]

theorem scaledSum_ne_nan (t : Trainer) (v : F64) (hm : t.mood.Finite) (hv : v.Finite)
    (hR : t.RewardMultiplier.Finite) (hP : t.PunishmentMultiplier.Finite) :
    t.scaledSum v ≠ .nan := by
  unfold Trainer.scaledSum
  split_ifs
  · exact add_ne_nan_of_finite _ _ hm (mul_ne_nan_of_finite _ _ hv hR)
  · exact add_ne_nan_of_finite _ _ hm (mul_ne_nan_of_finite _ _ hv hP)

theorem finite_of_between (lo hi m : F64) (hlo : lo.Finite) (hhi : hi.Finite)
    (h1 : F64.le lo m = true) (h2 : F64.le m hi = true) : m.Finite := by
  cases lo <;> cases hi <;> cases m <;> simp_all [F64.Finite, F64.le]

theorem modifyMood_multipliers64 (b : Bounds) (t : Trainer) (v : F64) :
    (t.modifyMood b v).RewardMultiplier = t.RewardMultiplier ∧
    (t.modifyMood b v).PunishmentMultiplier = t.PunishmentMultiplier := by
  rw [modifyMood_frame64 b t v]
  exact ⟨rfl, rfl⟩

theorem collectPossible_mem (sd : F64) (l acc : List Reward) :
    ∀ x ∈ collectPossible sd l acc, x ∈ acc ∨ x ∈ l := by
  induction l generalizing acc with
  | nil => intro x hx; exact Or.inl hx
  | cons r rest ih =>
    intro x hx
    unfold collectPossible at hx
    split_ifs at hx
    · rcases ih _ x hx with h | h
      · rcases List.mem_append.mp h with h | h
        · exact Or.inl h
        · exact Or.inr (by simp at h; simp [h])
      · exact Or.inr (List.mem_cons_of_mem _ h)
    · rcases ih _ x hx with h | h
      · exact Or.inl h
      · exact Or.inr (List.mem_cons_of_mem _ h)

theorem resolveRewards_mem (cat : Catalog) (ids : List String) (acc res : List Reward)
    (h : resolveRewards cat ids acc = .ok res) :
    ∀ x ∈ res, x ∈ acc ∨ ∃ id, cat.GetReward id = .ok x := by
  induction ids generalizing acc with
  | nil =>
    simp only [resolveRewards, Except.ok.injEq] at h
    intro x hx
    exact Or.inl (h ▸ hx)
  | cons id rest ih =>
    cases hc : cat.GetReward id with
    | error e => simp [resolveRewards, hc] at h
    | ok rew =>
      simp only [resolveRewards, hc] at h
      intro x hx
      rcases ih _ h x hx with h1 | h1
      · rcases List.mem_append.mp h1 with h2 | h2
        · exact Or.inl h2
        · have : x = rew := by simpa using h2
          exact Or.inr ⟨id, this ▸ hc⟩
      · exact Or.inr h1

/-- The invariant carried along a call sequence: finite multipliers and a mood
within the bounds. -/
theorem exec_keeps_bounds (b : Bounds) (cat : Catalog) (t : Trainer) (c : Call)
    (hb : F64.le b.TrainerMinMood b.TrainerMaxMood = true)
    (hfb : b.TrainerMinMood.Finite ∧ b.TrainerMaxMood.Finite)
    (hcat : cat.FiniteValues)
    (hm : t.RewardMultiplier.Finite ∧ t.PunishmentMultiplier.Finite)
    (h : F64.le b.TrainerMinMood t.mood = true ∧ F64.le t.mood b.TrainerMaxMood = true) :
    ((c.exec b cat t).RewardMultiplier.Finite ∧ (c.exec b cat t).PunishmentMultiplier.Finite) ∧
    (F64.le b.TrainerMinMood (c.exec b cat t).mood = true ∧
      F64.le (c.exec b cat t).mood b.TrainerMaxMood = true) := by
  have hfin : t.mood.Finite := finite_of_between _ _ _ hfb.1 hfb.2 h.1 h.2
  have hmod : ∀ v : F64, v.Finite →
      ((t.modifyMood b v).RewardMultiplier.Finite ∧
        (t.modifyMood b v).PunishmentMultiplier.Finite) ∧
      (F64.le b.TrainerMinMood (t.modifyMood b v).mood = true ∧
        F64.le (t.modifyMood b v).mood b.TrainerMaxMood = true) := by
    intro v hv
    refine ⟨?_, modifyMood_inBounds64 b t v hb (scaledSum_ne_nan t v hfin hv hm.1 hm.2)⟩
    rw [(modifyMood_multipliers64 b t v).1, (modifyMood_multipliers64 b t v).2]
    exact hm
  cases c with
  | ConfessTo confessionID =>
    simp only [Call.exec, Trainer.ConfessTo]
    split
    · exact ⟨hm, h⟩
    · split
      · exact ⟨hm, h⟩
      · rename_i conf hconf
        exact hmod _ (hcat.1 _ _ hconf)
  | Reward val k =>
    simp only [Call.exec, Trainer.Reward]
    split
    · exact ⟨hm, h⟩
    · split
      · exact ⟨hm, h⟩
      · rename_i rewards hres
        split
        · rename_i hpos
          apply hmod
          have hmem := List.get_mem (collectPossible
            (searchDeviation val rewards (F64.sub b.TrainerMaxMood b.TrainerMinMood))
            rewards []) (k % _) (Nat.mod_lt k hpos)
          rcases collectPossible_mem _ _ _ _ hmem with h1 | h1
          · cases h1
          · rcases resolveRewards_mem cat t.Rewards [] rewards hres _ h1 with h2 | ⟨id, h2⟩
            · cases h2
            · exact hcat.2.1 _ _ h2
        · exact ⟨hm, h⟩
  | triggerScenario =>
    simp only [Call.exec, Trainer.triggerScenario]
    split
    · exact ⟨hm, h⟩
    · split
      · exact ⟨hm, h⟩
      · rename_i s hs
        exact hmod _ (hcat.2.2 _ _ hs)
  | AskPermission permissionID r =>
    simp only [Call.exec, Trainer.AskPermission, Trainer.AskPermissionTraced]
    split
    · exact ⟨hm, h⟩
    · split
      · exact ⟨hm, h⟩
      · split_ifs <;> exact ⟨hm, h⟩
  | GetPunished val =>
    simp only [Call.exec, Trainer.GetPunished]
    split
    · exact ⟨hm, h⟩
    · split <;> exact ⟨hm, h⟩

/-! ## Binary64: rounding -/

theorem roundHalfEven_intCast (n : ℤ) : roundHalfEven (n : ℚ) = n := by
  simp [roundHalfEven]

theorem roundHalfEven_bounds (x : ℚ) :
    ⌊x⌋ ≤ roundHalfEven x ∧ roundHalfEven x ≤ ⌊x⌋ + 1 := by
  unfold roundHalfEven
  split_ifs <;> constructor <;> omega

theorem roundHalfEven_mono (x y : ℚ) (h : x ≤ y) : roundHalfEven x ≤ roundHalfEven y := by
  have hfg : ⌊x⌋ ≤ ⌊y⌋ := Int.floor_mono h
  rcases lt_or_eq_of_le hfg with hlt | heq
  · have hx := (roundHalfEven_bounds x).2
    have hy := (roundHalfEven_bounds y).1
    omega
  · unfold roundHalfEven
    rw [heq]
    split_ifs <;> first | omega | (exfalso; linarith)

theorem two_zpow_pos (e : ℤ) : (0 : ℚ) < (2 : ℚ) ^ e :=
  zpow_pos (by norm_num) e

theorem two_zpow_eq_intCast (d : ℤ) (hd : 0 ≤ d) :
    (2 : ℚ) ^ d = (((2 : ℤ) ^ d.toNat : ℤ) : ℚ) := by
  lift d to ℕ using hd
  simp

theorem roundHalfEven_two_zpow (d : ℤ) (hd : 0 ≤ d) :
    ((roundHalfEven ((2 : ℚ) ^ d) : ℤ) : ℚ) = (2 : ℚ) ^ d := by
  rw [two_zpow_eq_intCast d hd, roundHalfEven_intCast]

theorem ulpExp_mono (a a' : ℚ) (h0 : 0 < a) (h : a ≤ a') : ulpExp a ≤ ulpExp a' := by
  unfold ulpExp
  have := Int.log_mono_right (b := 2) h0 h
  exact max_le_max (by omega) (le_refl _)

theorem roundMag_zero : roundMag 0 = 0 := by
  simp [roundMag, roundHalfEven]

theorem roundMag_nonneg (a : ℚ) (h : 0 ≤ a) : 0 ≤ roundMag a := by
  unfold roundMag
  apply mul_nonneg _ (le_of_lt (two_zpow_pos _))
  have h1 : (0 : ℚ) ≤ a / (2 : ℚ) ^ ulpExp a := div_nonneg h (le_of_lt (two_zpow_pos _))
  have h2 := roundHalfEven_mono 0 _ h1
  have h3 : roundHalfEven (0 : ℚ) = 0 := by simp [roundHalfEven]
  rw [h3] at h2
  exact_mod_cast h2

theorem roundMag_mono (a a' : ℚ) (h0 : 0 ≤ a) (h : a ≤ a') : roundMag a ≤ roundMag a' := by
  rcases eq_or_lt_of_le h0 with hz | hpos
  · rw [← hz, roundMag_zero]
    exact roundMag_nonneg a' (le_trans h0 h)
  have hpos' : 0 < a' := lt_of_lt_of_le hpos h
  have hu := ulpExp_mono a a' hpos h
  rcases eq_or_lt_of_le hu with heq | hlt
  · unfold roundMag
    rw [← heq]
    apply mul_le_mul_of_nonneg_right _ (le_of_lt (two_zpow_pos _))
    have : a / (2 : ℚ) ^ ulpExp a ≤ a' / (2 : ℚ) ^ ulpExp a :=
      div_le_div_of_nonneg_right h (le_of_lt (two_zpow_pos _))
    exact_mod_cast roundHalfEven_mono _ _ this
  · -- the two magnitudes lie in different binades: a power of two separates them
    have hu1 : -1074 ≤ ulpExp a := le_max_right _ _
    have hu2 : Int.log 2 a - 52 ≤ ulpExp a := le_max_left _ _
    have hu' : ulpExp a' = Int.log 2 a' - 52 := by
      unfold ulpExp at hlt hu1 ⊢
      rcases le_total (Int.log 2 a' - 52) (-1074) with hle | hle
      · rw [max_eq_right hle] at hlt
        omega
      · exact max_eq_left hle
    have hB1 : (2 : ℚ) ^ (ulpExp a' + 52) ≤ a' := by
      have := Int.zpow_log_le_self (b := 2) (by norm_num) hpos'
      have he : ulpExp a' + 52 = Int.log 2 a' := by omega
      rw [he]
      exact_mod_cast this
    have hB2 : a < (2 : ℚ) ^ (ulpExp a' + 52) := by
      have h1 := Int.lt_zpow_succ_log_self (b := 2) (by norm_num) a
      have h2 : (2 : ℚ) ^ (Int.log 2 a + 1) ≤ (2 : ℚ) ^ (ulpExp a' + 52) :=
        zpow_le_zpow_right₀ (by norm_num) (by omega)
      have h1' : a < (2 : ℚ) ^ (Int.log 2 a + 1) := by exact_mod_cast h1
      exact lt_of_lt_of_le h1' h2
    -- below the power of two
    have hlow : roundMag a ≤ (2 : ℚ) ^ (ulpExp a' + 52) := by
      unfold roundMag
      have hd : (0 : ℤ) ≤ ulpExp a' + 52 - ulpExp a := by omega
      have hdiv : a / (2 : ℚ) ^ ulpExp a ≤ (2 : ℚ) ^ (ulpExp a' + 52 - ulpExp a) := by
        rw [zpow_sub₀ (by norm_num : (2 : ℚ) ≠ 0)]
        exact div_le_div_of_nonneg_right (le_of_lt hB2) (le_of_lt (two_zpow_pos _))
      have hr := roundHalfEven_mono _ _ hdiv
      have hr' : ((roundHalfEven (a / (2 : ℚ) ^ ulpExp a) : ℤ) : ℚ) ≤
          (2 : ℚ) ^ (ulpExp a' + 52 - ulpExp a) := by
        rw [← roundHalfEven_two_zpow _ hd]
        exact_mod_cast hr
      calc ((roundHalfEven (a / (2 : ℚ) ^ ulpExp a) : ℤ) : ℚ) * (2 : ℚ) ^ ulpExp a
          ≤ (2 : ℚ) ^ (ulpExp a' + 52 - ulpExp a) * (2 : ℚ) ^ ulpExp a :=
            mul_le_mul_of_nonneg_right hr' (le_of_lt (two_zpow_pos _))
        _ = (2 : ℚ) ^ (ulpExp a' + 52) := by
            rw [← zpow_add₀ (by norm_num : (2 : ℚ) ≠ 0)]
            congr 1
            omega
    -- above the power of two
    have hhigh : (2 : ℚ) ^ (ulpExp a' + 52) ≤ roundMag a' := by
      unfold roundMag
      have hdiv : (2 : ℚ) ^ (52 : ℤ) ≤ a' / (2 : ℚ) ^ ulpExp a' := by
        rw [le_div_iff₀ (two_zpow_pos _), ← zpow_add₀ (by norm_num : (2 : ℚ) ≠ 0)]
        have : (52 : ℤ) + ulpExp a' = ulpExp a' + 52 := by omega
        rw [this]
        exact hB1
      have hr := roundHalfEven_mono _ _ hdiv
      have hr' : (2 : ℚ) ^ (52 : ℤ) ≤
          ((roundHalfEven (a' / (2 : ℚ) ^ ulpExp a') : ℤ) : ℚ) := by
        rw [← roundHalfEven_two_zpow 52 (by norm_num)]
        exact_mod_cast hr
      calc (2 : ℚ) ^ (ulpExp a' + 52)
          = (2 : ℚ) ^ (52 : ℤ) * (2 : ℚ) ^ ulpExp a' := by
            rw [← zpow_add₀ (by norm_num : (2 : ℚ) ≠ 0)]
            congr 1
            omega
        _ ≤ ((roundHalfEven (a' / (2 : ℚ) ^ ulpExp a') : ℤ) : ℚ) * (2 : ℚ) ^ ulpExp a' :=
            mul_le_mul_of_nonneg_right hr' (le_of_lt (two_zpow_pos _))
    exact le_trans hlow hhigh

theorem round_zero : round 0 = .fin 0 := by
  have h : ¬ ((2 : ℚ) ^ (1024 : ℕ) ≤ 0) := by norm_num
  simp [round, roundMag_zero, h]

theorem round_mono (q q' : ℚ) (h : q ≤ q') : F64.le (round q) (round q') = true := by
  unfold round
  by_cases h0 : 0 ≤ q
  · have h0' : 0 ≤ q' := le_trans h0 h
    have hm := roundMag_mono q q' h0 h
    rw [if_pos h0, if_pos h0']
    split_ifs with h1 h2 h2
    · rfl
    · exact absurd (le_trans h1 hm) h2
    · rfl
    · simpa [F64.le] using hm
  · have hq : q < 0 := not_le.mp h0
    rw [if_neg h0]
    have hmq : 0 ≤ roundMag (-q) := roundMag_nonneg _ (by linarith)
    by_cases h0' : 0 ≤ q'
    · rw [if_pos h0']
      have hmq' : 0 ≤ roundMag q' := roundMag_nonneg _ h0'
      split_ifs
      · rfl
      · rfl
      · rfl
      · simp only [F64.le, decide_eq_true_eq]
        linarith
    · rw [if_neg h0']
      have hm := roundMag_mono (-q') (-q) (by linarith [not_le.mp h0']) (by linarith)
      split_ifs with h1 h2 h2
      · rfl
      · rfl
      · exact absurd (le_trans h2 hm) h1
      · simp only [F64.le, decide_eq_true_eq]
        linarith

theorem round_nonneg (q : ℚ) (h : 0 ≤ q) : F64.le (.fin 0) (round q) = true := by
  have := round_mono 0 q h
  rwa [round_zero] at this

theorem round_nonpos (q : ℚ) (h : q ≤ 0) : F64.le (round q) (.fin 0) = true := by
  have := round_mono q 0 h
  rwa [round_zero] at this

/-- A magnitude `k * 2^e` with `k < 2^53` and `e ≥ -1074` is left alone by the
rounding of magnitudes. -/
theorem roundMag_exact (k : ℕ) (e : ℤ) (hk : k < 2 ^ 53) (he : -1074 ≤ e) :
    roundMag ((k : ℚ) * (2 : ℚ) ^ e) = (k : ℚ) * (2 : ℚ) ^ e := by
  rcases Nat.eq_zero_or_pos k with hz | hpos
  · simp [hz, roundMag_zero]
  have hkq : (0 : ℚ) < (k : ℚ) := by exact_mod_cast hpos
  have ha : (0 : ℚ) < (k : ℚ) * (2 : ℚ) ^ e := mul_pos hkq (two_zpow_pos e)
  -- the exponent of the last place is at most `e`
  have hlog : Int.log 2 ((k : ℚ) * (2 : ℚ) ^ e) < 53 + e := by
    rw [← Int.lt_zpow_iff_log_lt (by norm_num) ha]
    have h1 : (k : ℚ) < (2 : ℚ) ^ (53 : ℤ) := by
      have : ((k : ℕ) : ℚ) < ((2 ^ 53 : ℕ) : ℚ) := by exact_mod_cast hk
      calc (k : ℚ) < ((2 ^ 53 : ℕ) : ℚ) := this
        _ = (2 : ℚ) ^ (53 : ℤ) := by norm_num
    calc (k : ℚ) * (2 : ℚ) ^ e < (2 : ℚ) ^ (53 : ℤ) * (2 : ℚ) ^ e :=
          mul_lt_mul_of_pos_right h1 (two_zpow_pos e)
      _ = ((2 : ℕ) : ℚ) ^ (53 + e) := by
          rw [← zpow_add₀ (by norm_num : (2 : ℚ) ≠ 0)]
          norm_num
  have hu : ulpExp ((k : ℚ) * (2 : ℚ) ^ e) ≤ e := by
    unfold ulpExp
    exact max_le (by omega) he
  unfold roundMag
  set u := ulpExp ((k : ℚ) * (2 : ℚ) ^ e) with hudef
  have hd : (0 : ℤ) ≤ e - u := by omega
  have hint : (k : ℚ) * (2 : ℚ) ^ e / (2 : ℚ) ^ u =
      (((k : ℤ) * (2 : ℤ) ^ (e - u).toNat : ℤ) : ℚ) := by
    rw [mul_div_assoc, ← zpow_sub₀ (by norm_num : (2 : ℚ) ≠ 0), two_zpow_eq_intCast _ hd]
    push_cast
    rfl
  rw [hint, roundHalfEven_intCast, ← hint]
  field_simp

theorem round_exact (k : ℕ) (e : ℤ) (hk : k < 2 ^ 53) (he : -1074 ≤ e) (he' : e ≤ 971) :
    round ((k : ℚ) * (2 : ℚ) ^ e) = .fin ((k : ℚ) * (2 : ℚ) ^ e) ∧
    round (-((k : ℚ) * (2 : ℚ) ^ e)) = .fin (-((k : ℚ) * (2 : ℚ) ^ e)) := by
  have hm := roundMag_exact k e hk he
  have hnn : (0 : ℚ) ≤ (k : ℚ) * (2 : ℚ) ^ e :=
    mul_nonneg (by exact_mod_cast Nat.zero_le k) (le_of_lt (two_zpow_pos e))
  have hlt : ¬ ((2 : ℚ) ^ (1024 : ℕ) ≤ (k : ℚ) * (2 : ℚ) ^ e) := by
    rw [not_le]
    have h1 : (k : ℚ) < (2 : ℚ) ^ (53 : ℤ) := by
      have : ((k : ℕ) : ℚ) < ((2 ^ 53 : ℕ) : ℚ) := by exact_mod_cast hk
      calc (k : ℚ) < ((2 ^ 53 : ℕ) : ℚ) := this
        _ = (2 : ℚ) ^ (53 : ℤ) := by norm_num
    have h2 : (2 : ℚ) ^ e ≤ (2 : ℚ) ^ (971 : ℤ) := zpow_le_zpow_right₀ (by norm_num) he'
    calc (k : ℚ) * (2 : ℚ) ^ e < (2 : ℚ) ^ (53 : ℤ) * (2 : ℚ) ^ e :=
          mul_lt_mul_of_pos_right h1 (two_zpow_pos e)
      _ ≤ (2 : ℚ) ^ (53 : ℤ) * (2 : ℚ) ^ (971 : ℤ) :=
          mul_le_mul_of_nonneg_left h2 (le_of_lt (two_zpow_pos _))
      _ = (2 : ℚ) ^ (1024 : ℕ) := by
          rw [← zpow_add₀ (by norm_num : (2 : ℚ) ≠ 0)]
          norm_num
  constructor
  · unfold round
    rw [if_pos hnn, hm, if_neg hlt]
  · rcases eq_or_lt_of_le hnn with hz | hpos
    · rw [← hz]
      simpa using round_zero
    · unfold round
      have hneg : ¬ (0 ≤ -((k : ℚ) * (2 : ℚ) ^ e)) := by linarith
      rw [if_neg hneg, neg_neg, hm, if_neg hlt]

theorem round_natCast (n : ℕ) (hn : n < 2 ^ 53) :
    round (n : ℚ) = .fin (n : ℚ) ∧ round (-(n : ℚ)) = .fin (-(n : ℚ)) := by
  have := round_exact n 0 hn (by norm_num) (by norm_num)
  simpa using this

/-- A finite value that rounding leaves unchanged is a whole multiple of the
smallest subnormal `2^(-1074)`. -/
theorem valid_on_grid (q : ℚ) (h : round q = .fin q) :
    ∃ n : ℤ, q = (n : ℚ) * (2 : ℚ) ^ (-1074 : ℤ) := by
  have key : ∀ a : ℚ, roundMag a = a → ∃ n : ℤ, a = (n : ℚ) * (2 : ℚ) ^ (-1074 : ℤ) := by
    intro a ha
    have hu : (0 : ℤ) ≤ ulpExp a + 1074 := by
      have : -1074 ≤ ulpExp a := le_max_right _ _
      omega
    refine ⟨roundHalfEven (a / (2 : ℚ) ^ ulpExp a) * (2 : ℤ) ^ (ulpExp a + 1074).toNat, ?_⟩
    have h2 : (2 : ℚ) ^ ulpExp a =
        (((2 : ℤ) ^ (ulpExp a + 1074).toNat : ℤ) : ℚ) * (2 : ℚ) ^ (-1074 : ℤ) := by
      rw [← two_zpow_eq_intCast _ hu, ← zpow_add₀ (by norm_num : (2 : ℚ) ≠ 0)]
      congr 1
      omega
    conv_lhs => rw [← ha]
    unfold roundMag
    rw [h2]
    push_cast
    ring
  unfold round at h
  split_ifs at h with h0 h1 h1
  · have hq : roundMag q = q := by injection h
    exact key q hq
  · have hq : -roundMag (-q) = q := by injection h
    obtain ⟨n, hn⟩ := key (-q) (by linarith)
    exact ⟨-n, by push_cast; linarith⟩

theorem round_smallest : round ((2 : ℚ) ^ (-1074 : ℤ)) = .fin ((2 : ℚ) ^ (-1074 : ℤ)) := by
  have := (round_exact 1 (-1074) (by norm_num) (by norm_num) (by norm_num)).1
  simpa using this

/-- The difference of two distinct finite `float64` values does not round to
zero. -/
theorem round_sub_pos (x y : ℚ) (hx : round x = .fin x) (hy : round y = .fin y)
    (h : y < x) : F64.lt (.fin 0) (round (x - y)) = true := by
  obtain ⟨nx, hnx⟩ := valid_on_grid x hx
  obtain ⟨ny, hny⟩ := valid_on_grid y hy
  have hpos : (0 : ℚ) < (2 : ℚ) ^ (-1074 : ℤ) := two_zpow_pos _
  have hn : ny < nx := by
    by_contra hcon
    have hle : (nx : ℚ) ≤ (ny : ℚ) := by exact_mod_cast not_lt.mp hcon
    have := mul_le_mul_of_nonneg_right hle (le_of_lt hpos)
    rw [← hnx, ← hny] at this
    linarith
  have hone : (1 : ℚ) ≤ (nx : ℚ) - (ny : ℚ) := by
    have : ny + 1 ≤ nx := hn
    have h1 : ((ny + 1 : ℤ) : ℚ) ≤ (nx : ℚ) := by exact_mod_cast this
    push_cast at h1
    linarith
  have hge : (2 : ℚ) ^ (-1074 : ℤ) ≤ x - y := by
    rw [hnx, hny, ← sub_mul]
    calc (2 : ℚ) ^ (-1074 : ℤ) = 1 * (2 : ℚ) ^ (-1074 : ℤ) := by ring
      _ ≤ ((nx : ℚ) - (ny : ℚ)) * (2 : ℚ) ^ (-1074 : ℤ) :=
          mul_le_mul_of_nonneg_right hone (le_of_lt hpos)
  have hm := round_mono _ _ hge
  rw [round_smallest] at hm
  cases hr : round (x - y) with
  | nan => rw [hr] at hm; simp [F64.le] at hm
  | ninf => rw [hr] at hm; simp [F64.le] at hm
  | pinf => rfl
  | fin r =>
    rw [hr] at hm
    simp only [F64.le, decide_eq_true_eq] at hm
    simp only [F64.lt, decide_eq_true_eq]
    linarith

/-! ## Binary64: order facts about the operations -/

theorem add_ne_nan (x y : F64) (h : F64.add x y ≠ .nan) : x ≠ .nan ∧ y ≠ .nan := by
  cases x <;> cases y <;> simp_all [F64.add]

theorem mul_nonneg64 (v m : F64) (hv : F64.lt (.fin 0) v = true)
    (hm : F64.le (.fin 0) m = true) (h : F64.mul v m ≠ .nan) :
    F64.le (.fin 0) (F64.mul v m) = true := by
  match v, m, hv, hm, h with
  | .pinf, .pinf, _, _, _ => rfl
  | .pinf, .fin b, _, hm, h =>
    have hb : 0 ≤ b := by simpa [F64.le] using hm
    have hb0 : b ≠ 0 := by
      intro hz
      simp [F64.mul, hz] at h
    have hpos : 0 < b := lt_of_le_of_ne hb (Ne.symm hb0)
    simp [F64.mul, hb0, hpos, F64.le]
  | .fin a, .pinf, hv, _, _ =>
    have ha : 0 < a := by simpa [F64.lt] using hv
    simp [F64.mul, ne_of_gt ha, ha, F64.le]
  | .fin a, .fin b, hv, hm, _ =>
    have ha : 0 < a := by simpa [F64.lt] using hv
    have hb : 0 ≤ b := by simpa [F64.le] using hm
    simpa [F64.mul] using round_nonneg _ (mul_nonneg (le_of_lt ha) hb)

theorem mul_nonpos64 (v m : F64) (hv : F64.le v (.fin 0) = true)
    (hm : F64.le (.fin 0) m = true) (h : F64.mul v m ≠ .nan) :
    F64.le (F64.mul v m) (.fin 0) = true := by
  match v, m, hv, hm, h with
  | .ninf, .pinf, _, _, _ => rfl
  | .ninf, .fin b, _, hm, h =>
    have hb : 0 ≤ b := by simpa [F64.le] using hm
    have hb0 : b ≠ 0 := by
      intro hz
      simp [F64.mul, hz] at h
    have hpos : 0 < b := lt_of_le_of_ne hb (Ne.symm hb0)
    simp [F64.mul, hb0, hpos, F64.le]
  | .fin a, .pinf, hv, _, h =>
    have ha : a ≤ 0 := by simpa [F64.le] using hv
    have ha0 : a ≠ 0 := by
      intro hz
      simp [F64.mul, hz] at h
    have hneg : ¬ 0 < a := not_lt.mpr ha
    simp [F64.mul, ha0, hneg, F64.le]
  | .fin a, .fin b, hv, hm, _ =>
    have ha : a ≤ 0 := by simpa [F64.le] using hv
    have hb : 0 ≤ b := by simpa [F64.le] using hm
    simpa [F64.mul] using round_nonpos _ (mul_nonpos_of_nonpos_of_nonneg ha hb)

theorem add_ge_self (x p : F64) (hx : x.Valid) (hp : F64.le (.fin 0) p = true)
    (h : F64.add x p ≠ .nan) : F64.le x (F64.add x p) = true := by
  match x, p, hx, hp, h with
  | .ninf, .fin c, _, _, _ => rfl
  | .pinf, .pinf, _, _, _ => rfl
  | .pinf, .fin c, _, _, _ => rfl
  | .fin a, .pinf, _, _, _ => rfl
  | .fin a, .fin c, hx, hp, _ =>
    have hc : 0 ≤ c := by simpa [F64.le] using hp
    have := round_mono a (a + c) (by linarith)
    have hx' : round a = .fin a := hx
    rw [hx'] at this
    simpa [F64.add] using this

theorem add_le_self (x p : F64) (hx : x.Valid) (hp : F64.le p (.fin 0) = true)
    (h : F64.add x p ≠ .nan) : F64.le (F64.add x p) x = true := by
  match x, p, hx, hp, h with
  | .pinf, .fin c, _, _, _ => rfl
  | .ninf, .ninf, _, _, _ => rfl
  | .ninf, .fin c, _, _, _ => rfl
  | .fin a, .ninf, _, _, _ => rfl
  | .fin a, .fin c, hx, hp, _ =>
    have hc : c ≤ 0 := by simpa [F64.le] using hp
    have := round_mono (a + c) a (by linarith)
    have hx' : round a = .fin a := hx
    rw [hx'] at this
    simpa [F64.add] using this

theorem le_pinf (x : F64) (h : x ≠ .nan) : F64.le x .pinf = true := by
  cases x <;> simp_all [F64.le]

theorem ninf_le (x : F64) (h : x ≠ .nan) : F64.le .ninf x = true := by
  cases x <;> simp_all [F64.le]

theorem add_mono_left (x x' p : F64) (hxx : F64.le x x' = true)
    (h : F64.add x p ≠ .nan) (h' : F64.add x' p ≠ .nan) :
    F64.le (F64.add x p) (F64.add x' p) = true := by
  match x, x', p, hxx, h, h' with
  | .ninf, .ninf, .ninf, _, _, _ => rfl
  | .ninf, .ninf, .fin c, _, _, _ => rfl
  | .ninf, .fin a', .ninf, _, _, _ => rfl
  | .ninf, .fin a', .fin c, _, _, h' => exact ninf_le _ h'
  | .ninf, .pinf, .fin c, _, _, _ => rfl
  | .fin a, .fin a', .ninf, _, _, _ => rfl
  | .fin a, .fin a', .pinf, _, _, _ => rfl
  | .fin a, .fin a', .fin c, hxx, _, _ =>
    have haa : a ≤ a' := by simpa [F64.le] using hxx
    simpa [F64.add] using round_mono (a + c) (a' + c) (by linarith)
  | .fin a, .pinf, .pinf, _, _, _ => rfl
  | .fin a, .pinf, .fin c, _, h, _ => exact le_pinf _ h
  | .pinf, .pinf, .pinf, _, _, _ => rfl
  | .pinf, .pinf, .fin c, _, _, _ => rfl

/-! ## Binary64: the two cuts and the order -/

theorem f64_le_antisymm (x y : F64) (h1 : F64.le x y = true) (h2 : F64.le y x = true) :
    x = y := by
  match x, y, h1, h2 with
  | .ninf, .ninf, _, _ => rfl
  | .pinf, .pinf, _, _ => rfl
  | .fin a, .fin b, h1, h2 =>
    have hab : a ≤ b := by simpa [F64.le] using h1
    have hba : b ≤ a := by simpa [F64.le] using h2
    rw [le_antisymm hab hba]

theorem f64_ne_nan_of_le (x y : F64) (h : F64.le x y = true) : x ≠ .nan ∧ y ≠ .nan := by
  cases x <;> cases y <;> simp_all [F64.le]

theorem f64_ne_nan_of_lt (x y : F64) (h : F64.lt x y = true) : x ≠ .nan ∧ y ≠ .nan := by
  cases x <;> cases y <;> simp_all [F64.lt]

theorem f64_lt_false_of_le (x y : F64) (h : F64.le y x = true) : F64.lt x y = false :=
  (f64_not_lt_iff_le x y (f64_ne_nan_of_le _ _ h).2 (f64_ne_nan_of_le _ _ h).1).mpr h

theorem cutMood_self (b : Bounds) (s : F64)
    (h1 : F64.le b.TrainerMinMood s = true) (h2 : F64.le s b.TrainerMaxMood = true) :
    cutMood b s = s := by
  unfold cutMood
  rw [f64_lt_false_of_le _ _ h2]
  simp only [Bool.false_eq_true, if_false]
  rw [f64_lt_false_of_le _ _ h1]
  simp

theorem cutMood_eq_max (b : Bounds) (s : F64)
    (hb : F64.le b.TrainerMinMood b.TrainerMaxMood = true)
    (h : F64.le b.TrainerMaxMood s = true) : cutMood b s = b.TrainerMaxMood := by
  by_cases h1 : F64.lt b.TrainerMaxMood s = true
  · unfold cutMood
    rw [h1]
    simp only [if_true]
    rw [f64_lt_false_of_le _ _ hb]
    simp
  · have h1' : F64.lt b.TrainerMaxMood s = false := by simpa using h1
    have hs : F64.le s b.TrainerMaxMood = true :=
      (f64_not_lt_iff_le _ _ (f64_ne_nan_of_le _ _ h).1 (f64_ne_nan_of_le _ _ h).2).mp h1'
    have heq : s = b.TrainerMaxMood := f64_le_antisymm _ _ hs h
    rw [heq]
    exact cutMood_self b _ hb (f64_le_refl _ (f64_ne_nan_of_le _ _ hb).2)

theorem cutMood_eq_min (b : Bounds) (s : F64)
    (hb : F64.le b.TrainerMinMood b.TrainerMaxMood = true)
    (h : F64.le s b.TrainerMinMood = true) : cutMood b s = b.TrainerMinMood := by
  have hsmax : F64.le s b.TrainerMaxMood = true := f64_le_trans _ _ _ h hb
  by_cases h1 : F64.lt s b.TrainerMinMood = true
  · unfold cutMood
    rw [f64_lt_false_of_le _ _ hsmax]
    simp only [Bool.false_eq_true, if_false]
    rw [h1]
    simp
  · have h1' : F64.lt s b.TrainerMinMood = false := by simpa using h1
    have hs : F64.le b.TrainerMinMood s = true :=
      (f64_not_lt_iff_le _ _ (f64_ne_nan_of_le _ _ h).1 (f64_ne_nan_of_le _ _ h).2).mp h1'
    have heq : s = b.TrainerMinMood := f64_le_antisymm _ _ h hs
    rw [heq]
    exact cutMood_self b _ (f64_le_refl _ (f64_ne_nan_of_le _ _ hb).1) hb

theorem cutMood_mono (b : Bounds) (s s' : F64)
    (hb : F64.le b.TrainerMinMood b.TrainerMaxMood = true)
    (h : F64.le s s' = true) : F64.le (cutMood b s) (cutMood b s') = true := by
  have hs := (f64_ne_nan_of_le _ _ h).1
  have hs' := (f64_ne_nan_of_le _ _ h).2
  have hmax := (f64_ne_nan_of_le _ _ hb).2
  have hmin := (f64_ne_nan_of_le _ _ hb).1
  by_cases h1 : F64.lt b.TrainerMaxMood s' = true
  · rw [cutMood_eq_max b s' hb (f64_le_of_lt _ _ h1)]
    exact (cutMood_inBounds b s hb hs).2
  · have h1' : F64.lt b.TrainerMaxMood s' = false := by simpa using h1
    have hs'max : F64.le s' b.TrainerMaxMood = true :=
      (f64_not_lt_iff_le _ _ hmax hs').mp h1'
    by_cases h2 : F64.lt s b.TrainerMinMood = true
    · rw [cutMood_eq_min b s hb (f64_le_of_lt _ _ h2)]
      exact (cutMood_inBounds b s' hb hs').1
    · have h2' : F64.lt s b.TrainerMinMood = false := by simpa using h2
      have hmins : F64.le b.TrainerMinMood s = true :=
        (f64_not_lt_iff_le _ _ hs hmin).mp h2'
      rw [cutMood_self b s hmins (f64_le_trans _ _ _ h hs'max),
        cutMood_self b s' (f64_le_trans _ _ _ hmins h) hs'max]
      exact h

/-! ## Binary64: staying at a bound -/

theorem mul_pos_ne_nan (v m : F64) (hv : F64.lt (.fin 0) v = true)
    (hm : F64.lt (.fin 0) m = true) : F64.mul v m ≠ .nan := by
  match v, m, hv, hm with
  | .pinf, .pinf, _, _ => simp [F64.mul]
  | .pinf, .fin b, _, hm =>
    have hb : 0 < b := by simpa [F64.lt] using hm
    simp [F64.mul, ne_of_gt hb, hb]
  | .fin a, .pinf, hv, _ =>
    have ha : 0 < a := by simpa [F64.lt] using hv
    simp [F64.mul, ne_of_gt ha, ha]
  | .fin a, .fin b, _, _ => simpa [F64.mul] using round_ne_nan (a * b)

theorem scaledSum_pos (t : Trainer) (v : F64) (hv : F64.lt (.fin 0) v = true) :
    t.scaledSum v = F64.add t.mood (F64.mul v t.RewardMultiplier) := by
  simp [Trainer.scaledSum, hv]

theorem scaledSum_nonpos (t : Trainer) (v : F64) (hv : F64.lt (.fin 0) v = false) :
    t.scaledSum v = F64.add t.mood (F64.mul v t.PunishmentMultiplier) := by
  simp [Trainer.scaledSum, hv]

theorem modifyMood_stays_max64 (b : Bounds) (t : Trainer) (w : F64)
    (hb : F64.le b.TrainerMinMood b.TrainerMaxMood = true)
    (hfin : b.TrainerMaxMood.Finite) (hval : b.TrainerMaxMood.Valid)
    (hR : F64.lt (.fin 0) t.RewardMultiplier = true)
    (hm : t.mood = b.TrainerMaxMood) (hw : F64.lt (.fin 0) w = true) :
    (t.modifyMood b w).mood = b.TrainerMaxMood := by
  have hp := mul_pos_ne_nan w _ hw hR
  have hp0 := mul_nonneg64 w _ hw (f64_le_of_lt _ _ hR) hp
  have hs : F64.add t.mood (F64.mul w t.RewardMultiplier) ≠ .nan :=
    add_ne_nan_of_finite _ _ (hm ▸ hfin) hp
  have hge := add_ge_self t.mood _ (hm ▸ hval) hp0 hs
  rw [modifyMood_mood64, scaledSum_pos t w hw]
  apply cutMood_eq_max b _ hb
  rw [← hm]
  exact hge

theorem modifyMood_stays_min64 (b : Bounds) (t : Trainer) (w : F64)
    (hb : F64.le b.TrainerMinMood b.TrainerMaxMood = true)
    (hfin : b.TrainerMinMood.Finite) (hval : b.TrainerMinMood.Valid)
    (hP : F64.lt (.fin 0) t.PunishmentMultiplier = true)
    (hm : t.mood = b.TrainerMinMood) (hw : F64.le w (.fin 0) = true)
    (hp : F64.mul w t.PunishmentMultiplier ≠ .nan) :
    (t.modifyMood b w).mood = b.TrainerMinMood := by
  have hp0 := mul_nonpos64 w _ hw (f64_le_of_lt _ _ hP) hp
  have hs : F64.add t.mood (F64.mul w t.PunishmentMultiplier) ≠ .nan :=
    add_ne_nan_of_finite _ _ (hm ▸ hfin) hp
  have hle := add_le_self t.mood _ (hm ▸ hval) hp0 hs
  rw [modifyMood_mood64, scaledSum_nonpos t w (f64_lt_false_of_le _ _ hw)]
  apply cutMood_eq_min b _ hb
  rw [← hm]
  exact hle

theorem modifyMoodAll_stays_max64 (b : Bounds) (vs : List F64) (t : Trainer)
    (hb : F64.le b.TrainerMinMood b.TrainerMaxMood = true)
    (hfin : b.TrainerMaxMood.Finite) (hval : b.TrainerMaxMood.Valid)
    (hR : F64.lt (.fin 0) t.RewardMultiplier = true)
    (hm : t.mood = b.TrainerMaxMood) (hvs : ∀ w ∈ vs, F64.lt (.fin 0) w = true) :
    (modifyMoodAll b t vs).mood = b.TrainerMaxMood := by
  induction vs generalizing t with
  | nil => exact hm
  | cons v rest ih =>
    simp only [modifyMoodAll, List.foldl_cons]
    exact ih (t.modifyMood b v)
      (by rw [(modifyMood_multipliers64 b t v).1]; exact hR)
      (modifyMood_stays_max64 b t v hb hfin hval hR hm (hvs v (List.mem_cons_self _ _)))
      (fun w hw => hvs w (List.mem_cons_of_mem _ hw))

theorem modifyMoodAll_stays_min64 (b : Bounds) (vs : List F64) (t : Trainer)
    (hb : F64.le b.TrainerMinMood b.TrainerMaxMood = true)
    (hfin : b.TrainerMinMood.Finite) (hval : b.TrainerMinMood.Valid)
    (hP : F64.lt (.fin 0) t.PunishmentMultiplier = true)
    (hm : t.mood = b.TrainerMinMood)
    (hvs : ∀ w ∈ vs, F64.le w (.fin 0) = true ∧ F64.mul w t.PunishmentMultiplier ≠ .nan) :
    (modifyMoodAll b t vs).mood = b.TrainerMinMood := by
  induction vs generalizing t with
  | nil => exact hm
  | cons v rest ih =>
    simp only [modifyMoodAll, List.foldl_cons]
    have hv := hvs v (List.mem_cons_self _ _)
    exact ih (t.modifyMood b v)
      (by rw [(modifyMood_multipliers64 b t v).2]; exact hP)
      (modifyMood_stays_min64 b t v hb hfin hval hP hm hv.1 hv.2)
      (fun w hw => by
        rw [(modifyMood_multipliers64 b t v).2]
        exact hvs w (List.mem_cons_of_mem _ hw))

/-! ## Binary64: evaluating `round` at a given number -/

theorem roundHalfEven_near (x : ℚ) (n : ℤ) (h1 : (n : ℚ) - 1 / 2 < x)
    (h2 : x < (n : ℚ) + 1 / 2) : roundHalfEven x = n := by
  by_cases hx : (n : ℚ) ≤ x
  · have hf : ⌊x⌋ = n := Int.floor_eq_iff.mpr ⟨hx, by linarith⟩
    unfold roundHalfEven
    rw [hf, if_pos (by linarith)]
  · have hx' : x < (n : ℚ) := not_le.mp hx
    have hf : ⌊x⌋ = n - 1 := Int.floor_eq_iff.mpr ⟨by push_cast; linarith, by push_cast; linarith⟩
    unfold roundHalfEven
    rw [hf, if_neg (by push_cast; linarith), if_pos (by push_cast; linarith)]
    omega

theorem roundHalfEven_tie_up (x : ℚ) (n : ℤ) (hx : x = (n : ℚ) - 1 / 2) (hn : n % 2 = 0) :
    roundHalfEven x = n := by
  have hf : ⌊x⌋ = n - 1 :=
    Int.floor_eq_iff.mpr ⟨by push_cast; linarith, by push_cast; linarith⟩
  have hodd : ¬ (n - 1) % 2 = 0 := by omega
  unfold roundHalfEven
  rw [hf, if_neg (by push_cast; linarith), if_neg (by push_cast; linarith), if_neg hodd]
  omega

/-- Evaluation of `round` at a positive normal number: with the exponent `u` of
the last place and the rounded significand `r` supplied. -/
theorem round_eval (q : ℚ) (u r : ℤ) (hq : 0 < q) (hlo : (2 : ℚ) ^ (u + 52) ≤ q)
    (hhi : q < (2 : ℚ) ^ (u + 53)) (hu : -1074 ≤ u)
    (hr : roundHalfEven (q / (2 : ℚ) ^ u) = r)
    (hlt : (r : ℚ) * (2 : ℚ) ^ u < (2 : ℚ) ^ (1024 : ℕ)) :
    round q = .fin ((r : ℚ) * (2 : ℚ) ^ u) := by
  have h1 : u + 52 ≤ Int.log 2 q := by
    rw [← Int.zpow_le_iff_le_log (by norm_num) hq]
    exact_mod_cast hlo
  have h2 : Int.log 2 q < u + 53 := by
    rw [← Int.lt_zpow_iff_log_lt (by norm_num) hq]
    exact_mod_cast hhi
  have hue : ulpExp q = u := by
    unfold ulpExp
    rw [max_eq_left (by omega)]
    omega
  have hm : roundMag q = (r : ℚ) * (2 : ℚ) ^ u := by
    unfold roundMag
    rw [hue, hr]
  unfold round
  rw [if_pos (le_of_lt hq), hm, if_neg (not_le.mpr hlt)]

/-! ## Binary64: numerator and denominator of `pb` -/

theorem round_one : round 1 = .fin 1 := by
  simpa using (round_natCast 1 (by norm_num)).1

theorem sub_pos_of_guards (m lo c : F64) (hlo : lo.Valid) (hc : c.Valid)
    (h1 : F64.lt m lo = false) (h2 : F64.lt m c = true) (hne : lo ≠ .nan) :
    F64.lt (.fin 0) (F64.sub c lo) = true := by
  match m, lo, c, hlo, hc, h1, h2, hne with
  | .ninf, .ninf, .fin y, _, _, _, _, _ => rfl
  | .ninf, .ninf, .pinf, _, _, _, _, _ => rfl
  | .fin x, .ninf, .fin y, _, _, _, _, _ => rfl
  | .fin x, .ninf, .pinf, _, _, _, _, _ => rfl
  | .fin x, .fin a, .pinf, _, _, _, _, _ => rfl
  | .fin x, .fin a, .fin y, hlo, hc, h1, h2, _ =>
    have hxa : a ≤ x := by simpa [F64.lt] using h1
    have hxy : x < y := by simpa [F64.lt] using h2
    have := round_sub_pos y a hc hlo (lt_of_le_of_lt hxa hxy)
    show F64.lt (.fin 0) (round (y + -a)) = true
    rwa [← sub_eq_add_neg]

theorem pb_range (m lo c : F64) (hlo : lo.Valid) (hc : c.Valid)
    (h1 : F64.lt m lo = false) (h2 : F64.lt m c = true)
    (hnum : (F64.sub m lo).Finite) :
    F64.le (.fin 0) (F64.div (F64.sub m lo) (F64.sub c lo)) = true ∧
    F64.le (F64.div (F64.sub m lo) (F64.sub c lo)) (.fin 1) = true := by
  match m, lo, c, hlo, hc, h1, h2, hnum with
  | .fin x, .fin a, .pinf, _, _, _, _, hnum =>
    have hn : ∃ n, F64.sub (.fin x) (.fin a) = .fin n := by
      cases hs : F64.sub (.fin x) (.fin a) <;> simp_all [F64.Finite]
    obtain ⟨n, hn⟩ := hn
    rw [hn]
    constructor
    · show F64.le (.fin 0) (.fin 0) = true
      simp [F64.le]
    · show F64.le (.fin 0) (.fin 1) = true
      simp [F64.le]
  | .fin x, .fin a, .fin y, hlo, hc, h1, h2, hnum =>
    have hxa : a ≤ x := by simpa [F64.lt] using h1
    have hxy : x < y := by simpa [F64.lt] using h2
    have hn : ∃ n, F64.sub (.fin x) (.fin a) = .fin n := by
      cases hs : F64.sub (.fin x) (.fin a) <;> simp_all [F64.Finite]
    obtain ⟨n, hn⟩ := hn
    have hn' : round (x + -a) = .fin n := hn
    have hn0 : 0 ≤ n := by
      have := round_nonneg (x + -a) (by linarith)
      rw [hn'] at this
      simpa [F64.le] using this
    have hdpos := sub_pos_of_guards (.fin x) (.fin a) (.fin y) hlo hc h1 h2 (by simp)
    have hmono := round_mono (x + -a) (y + -a) (by linarith)
    rw [hn]
    cases hd : F64.sub (.fin y) (.fin a) with
    | nan => rw [hd] at hdpos; simp [F64.lt] at hdpos
    | ninf => rw [hd] at hdpos; simp [F64.lt] at hdpos
    | pinf =>
      constructor
      · show F64.le (.fin 0) (.fin 0) = true
        simp [F64.le]
      · show F64.le (.fin 0) (.fin 1) = true
        simp [F64.le]
    | fin d =>
      have hd' : round (y + -a) = .fin d := hd
      rw [hd] at hdpos
      have hd0 : 0 < d := by simpa [F64.lt] using hdpos
      rw [hn', hd'] at hmono
      have hnd : n ≤ d := by simpa [F64.le] using hmono
      have hdiv : F64.div (.fin n) (.fin d) = round (n / d) := by
        simp [F64.div, ne_of_gt hd0]
      rw [hdiv]
      constructor
      · exact round_nonneg _ (div_nonneg hn0 (le_of_lt hd0))
      · have := round_mono (n / d) 1 ((div_le_one hd0).mpr hnd)
        rwa [round_one] at this

/-! ## C1: the mood invariant and NaN -/

/-- C1, as the code behaves: when `TrainerMinMood ≤ TrainerMaxMood`, both
bounds and both multipliers are finite, the mood starts within the bounds and
every catalog of the sequence hands out finite confession, reward and scenario
values, then after each call of any finite sequence of `ConfessTo`, `Reward`,
`triggerScenario`, `AskPermission` and `GetPunished` calls, with any arguments
and random draws, `Mood()` is within the bounds. -/
theorem mood_invariant_finite_values (b : Bounds) (calls : List (Catalog × Call))
    (t : Trainer)
    (hb : F64.le b.TrainerMinMood b.TrainerMaxMood = true)
    (hfb : b.TrainerMinMood.Finite ∧ b.TrainerMaxMood.Finite)
    (hm : t.RewardMultiplier.Finite ∧ t.PunishmentMultiplier.Finite)
    (hcat : ∀ c ∈ calls, c.1.FiniteValues)
    (h0 : F64.le b.TrainerMinMood t.Mood = true ∧ F64.le t.Mood b.TrainerMaxMood = true) :
    ∀ t' ∈ statesAfter b calls t,
      F64.le b.TrainerMinMood t'.Mood = true ∧ F64.le t'.Mood b.TrainerMaxMood = true := by
  induction calls generalizing t with
  | nil => intro t' ht'; simp [statesAfter] at ht'
  | cons head rest ih =>
    obtain ⟨cat, c⟩ := head
    intro t' ht'
    have hstep := exec_keeps_bounds b cat t c hb hfb
      (hcat (cat, c) (List.mem_cons_self _ _)) hm h0
    simp only [statesAfter, List.mem_cons] at ht'
    rcases ht' with rfl | ht'
    · exact hstep.2
    · exact ih (c.exec b cat t) hstep.1
        (fun x hx => hcat x (List.mem_cons_of_mem _ hx)) hstep.2 t' ht'

theorem sampleCatalog_finiteValues : sampleCatalog.FiniteValues := by
  refine ⟨?_, ?_, ?_⟩
  · intro id c h
    simp only [sampleCatalog] at h
    split_ifs at h <;> cases h <;> trivial
  · intro id r h
    simp only [sampleCatalog] at h
    split_ifs at h <;> cases h <;> trivial
  · intro id s h
    simp only [sampleCatalog] at h
    split_ifs at h <;> cases h <;> trivial

theorem mood_invariant_finite_values_witness :
    (F64.le sampleBounds.TrainerMinMood sampleBounds.TrainerMaxMood = true) ∧
    (sampleBounds.TrainerMinMood.Finite ∧ sampleBounds.TrainerMaxMood.Finite) ∧
    sampleCatalog.FiniteValues ∧
    ∀ t' ∈ statesAfter sampleBounds
        [(sampleCatalog, Call.ConfessTo "late"), (sampleCatalog, Call.Reward (.fin 3) 0),
         (sampleCatalog, Call.triggerScenario),
         (sampleCatalog, Call.AskPermission "tv" (.fin 0)),
         (sampleCatalog, Call.GetPunished (.fin 1))]
        (sampleTrainer (.fin 2) (.fin 1) (.fin 0)),
      F64.le sampleBounds.TrainerMinMood t'.Mood = true ∧
      F64.le t'.Mood sampleBounds.TrainerMaxMood = true :=
  ⟨by simp [sampleBounds, F64.le], by simp [sampleBounds, F64.Finite],
   sampleCatalog_finiteValues,
   mood_invariant_finite_values sampleBounds _ (sampleTrainer (.fin 2) (.fin 1) (.fin 0))
     (by simp [sampleBounds, F64.le]) (by simp [sampleBounds, F64.Finite])
     (by simp [sampleTrainer, F64.Finite])
     (by
       intro c hc
       simp only [List.mem_cons, List.mem_singleton, List.not_mem_nil, or_false] at hc
       rcases hc with rfl | rfl | rfl | rfl | rfl <;> exact sampleCatalog_finiteValues)
     (by simp [sampleBounds, sampleTrainer, Trainer.Mood, F64.le])⟩

theorem huge_values_valid :
    F64.Valid (.fin hugeValue) ∧ F64.Valid (.fin (-hugeValue)) := by
  have h := round_exact 4503599627370496 948 (by norm_num) (by norm_num) (by norm_num)
  have e : ((4503599627370496 : ℕ) : ℚ) * (2 : ℚ) ^ (948 : ℤ) = hugeValue := by
    unfold hugeValue
    norm_num
  rw [e] at h
  exact ⟨h.1, h.2⟩

theorem huge_product : F64.mul (.fin (-hugeValue)) (.fin hugeValue) = .ninf := by
  show round (-hugeValue * hugeValue) = .ninf
  have e : -(-hugeValue * hugeValue) = ((1 : ℕ) : ℚ) * (2 : ℚ) ^ (2000 : ℤ) := by
    unfold hugeValue
    norm_num
  have hm := roundMag_exact 1 2000 (by norm_num) (by norm_num)
  have hneg : ¬ (0 ≤ -hugeValue * hugeValue) := by
    unfold hugeValue
    norm_num
  unfold round
  rw [if_neg hneg, e, hm, if_pos (by norm_num)]

theorem huge_not_positive : F64.lt (.fin 0) (.fin (-hugeValue)) = false := by
  simp only [F64.lt, decide_eq_false_iff_not]
  unfold hugeValue
  norm_num

theorem huge_confession_mood :
    ((sampleTrainer (.fin 2) (.fin hugeValue) .pinf).modifyMood infiniteBounds
      (.fin (-hugeValue))).mood = .nan := by
  apply modifyMood_nan64
  rw [scaledSum_nonpos _ _ huge_not_positive]
  show F64.add .pinf (F64.mul (.fin (-hugeValue)) (.fin hugeValue)) = .nan
  rw [huge_product]
  rfl

theorem confessTo_resolved (b : Bounds) (cat : Catalog) (t : Trainer) (id : String)
    (v : F64) (hs : sliceContains t.Confessions id = true)
    (hc : cat.GetConfession id = .ok { ID := id, Value := v }) :
    (t.ConfessTo b cat id).trainer = t.modifyMood b v := by
  simp only [Trainer.ConfessTo, hs, hc, Bool.not_true, Bool.false_eq_true, if_false,
    Run.trainer]

/-- C1 fails as stated, and each finiteness assumption of the amended claim is
needed. With bounds `-10` and `10` and a trainer with mood `0` and
`PunishmentMultiplier = +Inf`, confessing the allow-listed confession `idle`,
whose catalog value is `0`, computes `0 * +Inf`, which is NaN; the call
returns nil and `Mood()` is NaN afterwards, not within the bounds. The same
happens with finite multipliers for the confession `never`, whose value is
minus infinity (`-Inf * 0`), and with finite multipliers and the finite value
`-2^1000` of `huge` when the bounds are infinite and the mood is `+Inf` (the
product overflows to `-Inf`, and `+Inf + -Inf` is NaN). -/
theorem confessTo_leaves_nan_mood :
    (F64.le sampleBounds.TrainerMinMood sampleBounds.TrainerMaxMood = true ∧
      (F64.le sampleBounds.TrainerMinMood (sampleTrainer (.fin 2) .pinf (.fin 0)).Mood = true ∧
        F64.le (sampleTrainer (.fin 2) .pinf (.fin 0)).Mood
          sampleBounds.TrainerMaxMood = true) ∧
      statesAfter sampleBounds [(sampleCatalog, Call.ConfessTo "idle")]
          (sampleTrainer (.fin 2) .pinf (.fin 0)) =
        [{ sampleTrainer (.fin 2) .pinf (.fin 0) with mood := .nan }] ∧
      ¬ (∀ t' ∈ statesAfter sampleBounds [(sampleCatalog, Call.ConfessTo "idle")]
            (sampleTrainer (.fin 2) .pinf (.fin 0)),
          F64.le sampleBounds.TrainerMinMood t'.Mood = true ∧
          F64.le t'.Mood sampleBounds.TrainerMaxMood = true)) ∧
    ((F64.le sampleBounds.TrainerMinMood (sampleTrainer (.fin 2) (.fin 0) (.fin 0)).Mood = true ∧
        F64.le (sampleTrainer (.fin 2) (.fin 0) (.fin 0)).Mood
          sampleBounds.TrainerMaxMood = true) ∧
      statesAfter sampleBounds [(extremeCatalog, Call.ConfessTo "never")]
          (sampleTrainer (.fin 2) (.fin 0) (.fin 0)) =
        [{ sampleTrainer (.fin 2) (.fin 0) (.fin 0) with mood := .nan }]) ∧
    (F64.le infiniteBounds.TrainerMinMood infiniteBounds.TrainerMaxMood = true ∧
      (F64.le infiniteBounds.TrainerMinMood
          (sampleTrainer (.fin 2) (.fin hugeValue) .pinf).Mood = true ∧
        F64.le (sampleTrainer (.fin 2) (.fin hugeValue) .pinf).Mood
          infiniteBounds.TrainerMaxMood = true) ∧
      (F64.Valid (.fin hugeValue) ∧ F64.Valid (.fin (-hugeValue))) ∧
      statesAfter infiniteBounds [(extremeCatalog, Call.ConfessTo "huge")]
          (sampleTrainer (.fin 2) (.fin hugeValue) .pinf) =
        [{ sampleTrainer (.fin 2) (.fin hugeValue) .pinf with mood := .nan }]) := by
  have h : statesAfter sampleBounds [(sampleCatalog, Call.ConfessTo "idle")]
        (sampleTrainer (.fin 2) .pinf (.fin 0)) =
      [{ sampleTrainer (.fin 2) .pinf (.fin 0) with mood := .nan }] := by
    simp [statesAfter, Call.exec, Trainer.ConfessTo, sliceContains, sampleTrainer,
      sampleCatalog, Run.trainer, Trainer.modifyMood, sampleBounds, F64.lt, F64.mul, F64.add]
  refine ⟨⟨by simp [sampleBounds, F64.le],
    by simp [sampleBounds, sampleTrainer, Trainer.Mood, F64.le], h, ?_⟩,
    ⟨by simp [sampleBounds, sampleTrainer, Trainer.Mood, F64.le], ?_⟩,
    ⟨rfl, ⟨rfl, rfl⟩, huge_values_valid, ?_⟩⟩
  · rw [h]
    intro hall
    have := (hall _ (List.mem_singleton.mpr rfl)).1
    simp [Trainer.Mood, f64_le_nan_right] at this
  · simp [statesAfter, Call.exec, Trainer.ConfessTo, sliceContains, sampleTrainer,
      extremeCatalog, Run.trainer, Trainer.modifyMood, sampleBounds, F64.lt, F64.mul, F64.add]
  · have hc : extremeCatalog.GetConfession "huge" =
        .ok { ID := "huge", Value := .fin (-hugeValue) } := by
      simp [extremeCatalog]
    have hs : sliceContains (sampleTrainer (.fin 2) (.fin hugeValue) .pinf).Confessions
        "huge" = true := by
      simp [sliceContains, sampleTrainer]
    simp only [statesAfter, Call.exec]
    rw [confessTo_resolved _ _ _ _ _ hs hc, modifyMood_frame64, huge_confession_mood]

/-! ## C4: the permission decision and NaN -/

/-- C4, as the code behaves: for an allow-listed permission that the catalog
resolves, `AskPermission` returns `(granted, nil)` where `granted` is true
exactly when `mood < MinMood` is false, whatever the random draw and
`CertainMood` are; when neither the mood nor `MinMood` is NaN this is
`mood ≥ MinMood`. With `MinMood = 0` and `CertainMood = 10` the moods `-5`,
`10` and `5` give `false`, `true` and `true`. -/
theorem askPermission_grants_unless_below (cat : Catalog) (t : Trainer)
    (permissionID : String) (r : F64) (p : Permission)
    (hmem : permissionID ∈ t.Permissions)
    (hcat : cat.GetPermission permissionID = .ok p) :
    t.AskPermission cat permissionID r = .ret (!(F64.lt t.mood p.MinMood), none) t ∧
    (t.mood ≠ .nan → p.MinMood ≠ .nan →
      t.AskPermission cat permissionID r = .ret (F64.le p.MinMood t.mood, none) t) ∧
    (p.MinMood = .fin 0 → p.CertainMood = .fin 10 →
      (t.mood = .fin (-5) → t.AskPermission cat permissionID r = .ret (false, none) t) ∧
      (t.mood = .fin 10 → t.AskPermission cat permissionID r = .ret (true, none) t) ∧
      (t.mood = .fin 5 → t.AskPermission cat permissionID r = .ret (true, none) t)) := by
  have hs : sliceContains t.Permissions permissionID = true :=
    (sliceContains_iff _ _).mpr hmem
  have key : t.AskPermission cat permissionID r =
      .ret (!(F64.lt t.mood p.MinMood), none) t := by
    simp only [Trainer.AskPermission, Trainer.AskPermissionTraced, hs, hcat, Bool.not_true,
      Bool.false_eq_true, if_false]
    by_cases h1 : F64.lt t.mood p.MinMood = true
    · simp [h1]
    · have h1' : F64.lt t.mood p.MinMood = false := by simpa using h1
      simp only [h1', Bool.false_eq_true, if_false, Bool.not_false]
      split_ifs <;> rfl
  refine ⟨key, fun hm hp => ?_, fun hmin _ => ⟨fun hm => ?_, fun hm => ?_, fun hm => ?_⟩⟩
  · rw [key]
    by_cases h1 : F64.lt t.mood p.MinMood = true
    · have h2 : F64.le p.MinMood t.mood = false := by
        by_contra hle
        have hle' : F64.le p.MinMood t.mood = true := by simpa using hle
        have := (f64_not_lt_iff_le _ _ hm hp).mpr hle'
        rw [h1] at this
        cases this
      rw [h1, h2]; rfl
    · have h1' : F64.lt t.mood p.MinMood = false := by simpa using h1
      rw [h1', (f64_not_lt_iff_le _ _ hm hp).mp h1']; rfl
  · rw [key, hm, hmin]; simp [F64.lt]
  · rw [key, hm, hmin]; simp [F64.lt]
  · rw [key, hm, hmin]; simp [F64.lt]

theorem askPermission_grants_unless_below_witness :
    ("tv" ∈ (sampleTrainer (.fin 2) (.fin 1) (.fin 5)).Permissions) ∧
    (sampleCatalog.GetPermission "tv" =
      .ok { ID := "tv", MinMood := .fin 0, CertainMood := .fin 10 }) ∧
    (sampleTrainer (.fin 2) (.fin 1) (.fin 5)).AskPermission sampleCatalog "tv" (.fin (9 / 10)) =
      .ret (true, none) (sampleTrainer (.fin 2) (.fin 1) (.fin 5)) :=
  ⟨by simp [sampleTrainer], by simp [sampleCatalog],
   ((askPermission_grants_unless_below sampleCatalog (sampleTrainer (.fin 2) (.fin 1) (.fin 5))
      "tv" (.fin (9 / 10)) { ID := "tv", MinMood := .fin 0, CertainMood := .fin 10 }
      (by simp [sampleTrainer]) (by simp [sampleCatalog])).2.2 rfl rfl).2.2
      (by simp [sampleTrainer])⟩

/-- C4 fails as stated: for the allow-listed, resolved permission `odd`, whose
`MinMood` is NaN, `AskPermission` at mood `0` returns `(true, nil)` although
`mood ≥ MinMood` is false; and at a NaN mood the permission `tv` with
`MinMood = 0` is granted although `mood ≥ MinMood` is false. -/
theorem askPermission_grants_on_nan :
    ((sampleTrainer (.fin 2) (.fin 1) (.fin 0)).AskPermission sampleCatalog "odd" (.fin 0) =
        .ret (true, none) (sampleTrainer (.fin 2) (.fin 1) (.fin 0)) ∧
      sampleCatalog.GetPermission "odd" =
        .ok { ID := "odd", MinMood := .nan, CertainMood := .fin 10 } ∧
      F64.le .nan (sampleTrainer (.fin 2) (.fin 1) (.fin 0)).mood = false) ∧
    ((sampleTrainer (.fin 2) (.fin 1) .nan).AskPermission sampleCatalog "tv" (.fin 0) =
        .ret (true, none) (sampleTrainer (.fin 2) (.fin 1) .nan) ∧
      sampleCatalog.GetPermission "tv" =
        .ok { ID := "tv", MinMood := .fin 0, CertainMood := .fin 10 } ∧
      F64.le (.fin 0) (sampleTrainer (.fin 2) (.fin 1) .nan).mood = false) := by
  refine ⟨⟨?_, by simp [sampleCatalog], by simp [sampleTrainer, F64.le]⟩,
    ⟨?_, by simp [sampleCatalog], by simp [sampleTrainer, F64.le]⟩⟩
  · simp [Trainer.AskPermission, Trainer.AskPermissionTraced, sliceContains, sampleTrainer,
      sampleCatalog, F64.lt, pbValue, F64.sub, F64.neg, F64.add, F64.div, F64.le]
  · simp [Trainer.AskPermission, Trainer.AskPermissionTraced, sliceContains, sampleTrainer,
      sampleCatalog, F64.lt]

/-! ## C11: saturation at the bounds, NaN and rounding -/

/-- C11, as the code behaves: with finite bounds `TrainerMinMood ≤
TrainerMaxMood`: when `RewardMultiplier > 0`, a `v > 0` whose scaled sum
`mood + v * RewardMultiplier` is `≥ TrainerMaxMood` sets the mood to
`TrainerMaxMood`, and from `TrainerMaxMood` every further series of positive
deltas leaves it there; when `PunishmentMultiplier > 0`, a `v < 0` whose scaled
sum `mood + v * PunishmentMultiplier` is `≤ TrainerMinMood` sets the mood to
`TrainerMinMood`, and from `TrainerMinMood` every further series of deltas
`≤ 0` whose product with `PunishmentMultiplier` is not NaN leaves it there. -/
theorem modifyMood_saturation_computed (b : Bounds) (t : Trainer)
    (hb : F64.le b.TrainerMinMood b.TrainerMaxMood = true)
    (hfin : b.TrainerMinMood.Finite ∧ b.TrainerMaxMood.Finite)
    (hval : b.TrainerMinMood.Valid ∧ b.TrainerMaxMood.Valid) :
    (F64.lt (.fin 0) t.RewardMultiplier = true →
      (∀ v : F64, F64.lt (.fin 0) v = true →
        F64.le b.TrainerMaxMood (t.scaledSum v) = true →
        (t.modifyMood b v).mood = b.TrainerMaxMood ∧
        ∀ vs : List F64, (∀ w ∈ vs, F64.lt (.fin 0) w = true) →
          (modifyMoodAll b (t.modifyMood b v) vs).mood = b.TrainerMaxMood) ∧
      (t.mood = b.TrainerMaxMood → ∀ w : F64, F64.lt (.fin 0) w = true →
        (t.modifyMood b w).mood = b.TrainerMaxMood)) ∧
    (F64.lt (.fin 0) t.PunishmentMultiplier = true →
      (∀ v : F64, F64.lt v (.fin 0) = true →
        F64.le (t.scaledSum v) b.TrainerMinMood = true →
        (t.modifyMood b v).mood = b.TrainerMinMood ∧
        ∀ vs : List F64,
          (∀ w ∈ vs, F64.le w (.fin 0) = true ∧
            F64.mul w t.PunishmentMultiplier ≠ .nan) →
          (modifyMoodAll b (t.modifyMood b v) vs).mood = b.TrainerMinMood) ∧
      (t.mood = b.TrainerMinMood → ∀ w : F64, F64.le w (.fin 0) = true →
        F64.mul w t.PunishmentMultiplier ≠ .nan →
        (t.modifyMood b w).mood = b.TrainerMinMood)) := by
  constructor
  · intro hR
    refine ⟨fun v _ hbig => ?_, fun hm w hw =>
      modifyMood_stays_max64 b t w hb hfin.2 hval.2 hR hm hw⟩
    have h1 : (t.modifyMood b v).mood = b.TrainerMaxMood := by
      rw [modifyMood_mood64]
      exact cutMood_eq_max b _ hb hbig
    refine ⟨h1, fun vs hvs => ?_⟩
    exact modifyMoodAll_stays_max64 b vs _ hb hfin.2 hval.2
      (by rw [(modifyMood_multipliers64 b t v).1]; exact hR) h1 hvs
  · intro hP
    refine ⟨fun v _ hbig => ?_, fun hm w hw hp =>
      modifyMood_stays_min64 b t w hb hfin.1 hval.1 hP hm hw hp⟩
    have h1 : (t.modifyMood b v).mood = b.TrainerMinMood := by
      rw [modifyMood_mood64]
      exact cutMood_eq_min b _ hb hbig
    refine ⟨h1, fun vs hvs => ?_⟩
    exact modifyMoodAll_stays_min64 b vs _ hb hfin.1 hval.1
      (by rw [(modifyMood_multipliers64 b t v).2]; exact hP) h1
      (fun w hw => by
        rw [(modifyMood_multipliers64 b t v).2]
        exact hvs w hw)

theorem sampleBounds_valid :
    sampleBounds.TrainerMinMood.Valid ∧ sampleBounds.TrainerMaxMood.Valid := by
  constructor
  · simpa [sampleBounds, F64.Valid] using (round_natCast 10 (by norm_num)).2
  · simpa [sampleBounds, F64.Valid] using (round_natCast 10 (by norm_num)).1

theorem modifyMood_saturation_computed_witness :
    (F64.le sampleBounds.TrainerMinMood sampleBounds.TrainerMaxMood = true) ∧
    (sampleBounds.TrainerMinMood.Finite ∧ sampleBounds.TrainerMaxMood.Finite) ∧
    (F64.lt (.fin 0) (sampleTrainer (.fin 2) (.fin 1) (.fin 3)).RewardMultiplier = true) ∧
    (F64.le sampleBounds.TrainerMaxMood
      ((sampleTrainer (.fin 2) (.fin 1) (.fin 3)).scaledSum .pinf) = true) ∧
    ((sampleTrainer (.fin 2) (.fin 1) (.fin 3)).modifyMood sampleBounds .pinf).mood =
      sampleBounds.TrainerMaxMood :=
  have hsum : F64.le sampleBounds.TrainerMaxMood
      ((sampleTrainer (.fin 2) (.fin 1) (.fin 3)).scaledSum .pinf) = true := by
    simp [Trainer.scaledSum, sampleTrainer, sampleBounds, F64.lt, F64.mul, F64.add, F64.le]
  ⟨by simp [sampleBounds, F64.le], by simp [sampleBounds, F64.Finite],
   by simp [sampleTrainer, F64.lt], hsum,
   ((((modifyMood_saturation_computed sampleBounds (sampleTrainer (.fin 2) (.fin 1) (.fin 3))
      (by simp [sampleBounds, F64.le]) (by simp [sampleBounds, F64.Finite])
      sampleBounds_valid).1 (by simp [sampleTrainer, F64.lt])).1 .pinf rfl hsum).1)⟩

theorem decimal_values_valid :
    decimalBounds.TrainerMinMood.Valid ∧ decimalBounds.TrainerMaxMood.Valid ∧
    F64.Valid (.fin (8235153604334621 / 2 ^ 56)) := by
  refine ⟨?_, ?_, ?_⟩
  · have := (round_exact 3152519739159347 (-52) (by norm_num) (by norm_num) (by norm_num)).2
    simp only [decimalBounds, F64.Valid]
    norm_num at this ⊢
    exact this
  · have := (round_exact 3602879701896397 (-55) (by norm_num) (by norm_num) (by norm_num)).1
    simp only [decimalBounds, F64.Valid]
    norm_num at this ⊢
    exact this
  · have := (round_exact 8235153604334621 (-56) (by norm_num) (by norm_num) (by norm_num)).1
    simp only [F64.Valid]
    norm_num at this ⊢
    exact this

theorem decimal_product :
    F64.mul (.fin (8235153604334621 / 2 ^ 56)) (.fin 7) = .fin (7205759403792793 / 2 ^ 53) := by
  show round ((8235153604334621 / 2 ^ 56 : ℚ) * 7) = _
  rw [round_eval ((8235153604334621 / 2 ^ 56 : ℚ) * 7) (-53) 7205759403792793
    (by norm_num) (by norm_num) (by norm_num) (by norm_num)
    (roundHalfEven_near _ _ (by norm_num) (by norm_num)) (by norm_num)]
  norm_num

theorem decimal_range :
    F64.sub decimalBounds.TrainerMaxMood decimalBounds.TrainerMinMood =
      .fin (7205759403792793 / 2 ^ 53) := by
  show round ((3602879701896397 / 2 ^ 55 : ℚ) + -(-(3152519739159347 / 2 ^ 52))) = _
  rw [round_eval ((3602879701896397 / 2 ^ 55 : ℚ) + -(-(3152519739159347 / 2 ^ 52))) (-53)
    7205759403792793
    (by norm_num) (by norm_num) (by norm_num) (by norm_num)
    (roundHalfEven_near _ _ (by norm_num) (by norm_num)) (by norm_num)]
  norm_num

theorem decimal_sum :
    F64.add (.fin (-(3152519739159347 / 2 ^ 52))) (.fin (7205759403792793 / 2 ^ 53)) =
      .fin (900719925474099 / 2 ^ 53) := by
  show round ((-(3152519739159347 / 2 ^ 52) : ℚ) + 7205759403792793 / 2 ^ 53) = _
  rw [round_eval ((-(3152519739159347 / 2 ^ 52) : ℚ) + 7205759403792793 / 2 ^ 53) (-56)
    7205759403792792
    (by norm_num) (by norm_num) (by norm_num) (by norm_num)
    (roundHalfEven_near _ _ (by norm_num) (by norm_num)) (by norm_num)]
  norm_num

/-- C11 fails as stated, in two ways, and the bounds of the amended claim have
to be finite. Rounding: with the bounds `-0.7` and
`0.1`, mood `-0.7`, `RewardMultiplier = 7` and `v = 0.11428571428571428`, all
`float64` values, `v * RewardMultiplier` and `TrainerMaxMood - TrainerMinMood`
both round to `0.7999999999999999`, so the hypothesis holds, yet the mood after
`modifyMood(v)` is `0.09999999999999998`, below `TrainerMaxMood`. NaN: with
bounds `-10` and `10`, mood `TrainerMinMood`, `PunishmentMultiplier = +Inf > 0`
and `v' = 0 ≤ 0`, the product is NaN and the mood leaves `TrainerMinMood`.
Infinite bounds: with both bounds and the mood minus infinity,
`RewardMultiplier = 1` and `v' = +Inf`, the sum `-Inf + +Inf` is NaN and the
mood leaves `TrainerMaxMood`. -/
theorem modifyMood_saturation_fails :
    ((decimalBounds.TrainerMinMood.Valid ∧ decimalBounds.TrainerMaxMood.Valid ∧
        F64.Valid (.fin (8235153604334621 / 2 ^ 56))) ∧
      F64.le decimalBounds.TrainerMinMood decimalBounds.TrainerMaxMood = true ∧
      F64.lt (.fin 0)
        (sampleTrainer (.fin 7) (.fin 1) (.fin (-(3152519739159347 / 2 ^ 52)))).RewardMultiplier
          = true ∧
      F64.le decimalBounds.TrainerMinMood
        (sampleTrainer (.fin 7) (.fin 1) (.fin (-(3152519739159347 / 2 ^ 52)))).mood = true ∧
      F64.le (sampleTrainer (.fin 7) (.fin 1) (.fin (-(3152519739159347 / 2 ^ 52)))).mood
        decimalBounds.TrainerMaxMood = true ∧
      F64.lt (.fin 0) (.fin (8235153604334621 / 2 ^ 56)) = true ∧
      F64.le (F64.sub decimalBounds.TrainerMaxMood decimalBounds.TrainerMinMood)
        (F64.mul (.fin (8235153604334621 / 2 ^ 56))
          (sampleTrainer (.fin 7) (.fin 1)
            (.fin (-(3152519739159347 / 2 ^ 52)))).RewardMultiplier) = true ∧
      ((sampleTrainer (.fin 7) (.fin 1) (.fin (-(3152519739159347 / 2 ^ 52)))).modifyMood
          decimalBounds (.fin (8235153604334621 / 2 ^ 56))).mood =
        .fin (900719925474099 / 2 ^ 53) ∧
      ((sampleTrainer (.fin 7) (.fin 1) (.fin (-(3152519739159347 / 2 ^ 52)))).modifyMood
          decimalBounds (.fin (8235153604334621 / 2 ^ 56))).mood ≠
        decimalBounds.TrainerMaxMood) ∧
    (F64.lt (.fin 0) (sampleTrainer (.fin 2) .pinf (.fin (-10))).PunishmentMultiplier = true ∧
      (sampleTrainer (.fin 2) .pinf (.fin (-10))).mood = sampleBounds.TrainerMinMood ∧
      F64.le (.fin 0) (.fin 0) = true ∧
      ((sampleTrainer (.fin 2) .pinf (.fin (-10))).modifyMood sampleBounds (.fin 0)).mood =
        .nan ∧
      ((sampleTrainer (.fin 2) .pinf (.fin (-10))).modifyMood sampleBounds (.fin 0)).mood ≠
        sampleBounds.TrainerMinMood) ∧
    (F64.le F64.ninf F64.ninf = true ∧
      F64.lt (.fin 0) (sampleTrainer (.fin 1) (.fin 1) .ninf).RewardMultiplier = true ∧
      (sampleTrainer (.fin 1) (.fin 1) .ninf).mood = F64.ninf ∧
      F64.lt (.fin 0) .pinf = true ∧
      (Trainer.modifyMood { TrainerMinMood := .ninf, TrainerMaxMood := .ninf }
        (sampleTrainer (.fin 1) (.fin 1) .ninf) .pinf).mood = .nan) := by
  have hv : F64.lt (.fin 0) (.fin (8235153604334621 / 2 ^ 56)) = true := by
    simp [F64.lt]
  have hmood : ((sampleTrainer (.fin 7) (.fin 1) (.fin (-(3152519739159347 / 2 ^ 52)))).modifyMood
      decimalBounds (.fin (8235153604334621 / 2 ^ 56))).mood =
      .fin (900719925474099 / 2 ^ 53) := by
    rw [modifyMood_mood64, scaledSum_pos _ _ hv]
    show cutMood decimalBounds
      (F64.add (.fin (-(3152519739159347 / 2 ^ 52)))
        (F64.mul (.fin (8235153604334621 / 2 ^ 56)) (.fin 7))) = _
    rw [decimal_product, decimal_sum]
    apply cutMood_self
    · simp only [decimalBounds, F64.le, decide_eq_true_eq]
      norm_num
    · simp only [decimalBounds, F64.le, decide_eq_true_eq]
      norm_num
  have hnan : ((sampleTrainer (.fin 2) .pinf (.fin (-10))).modifyMood sampleBounds
      (.fin 0)).mood = .nan := by
    simp [Trainer.modifyMood, sampleTrainer, sampleBounds, F64.lt, F64.mul, F64.add]
  have hinf : (Trainer.modifyMood { TrainerMinMood := .ninf, TrainerMaxMood := .ninf }
      (sampleTrainer (.fin 1) (.fin 1) .ninf) .pinf).mood = .nan := by
    simp [Trainer.modifyMood, sampleTrainer, F64.lt, F64.mul, F64.add]
  refine ⟨⟨decimal_values_valid, ?_, by simp [sampleTrainer, F64.lt], ?_, ?_, hv, ?_, hmood, ?_⟩,
    ⟨by simp [sampleTrainer, F64.lt], rfl, by simp [F64.le], hnan, ?_⟩,
    ⟨rfl, by simp [sampleTrainer, F64.lt], rfl, rfl, hinf⟩⟩
  · simp only [decimalBounds, F64.le, decide_eq_true_eq]
    norm_num
  · simp only [decimalBounds, sampleTrainer, F64.le, decide_eq_true_eq]
    norm_num
  · simp only [decimalBounds, sampleTrainer, F64.le, decide_eq_true_eq]
    norm_num
  · rw [decimal_range]
    show F64.le _ (F64.mul (.fin (8235153604334621 / 2 ^ 56)) (.fin 7)) = true
    rw [decimal_product]
    simp [F64.le]
  · rw [hmood]
    simp only [decimalBounds, ne_eq, F64.fin.injEq]
    norm_num
  · rw [hnan]
    simp [sampleBounds]

/-! ## C13: the clamp and NaN -/

/-- C13, as the code behaves: assuming only `TrainerMinMood ≤ TrainerMaxMood`,
for every prior mood, every pair of multipliers and every delta `v`, the mood
after `modifyMood(v)` is within the bounds whenever the scaled sum
`mood + v * multiplier` is not NaN; when that sum is NaN the mood is NaN. The
scaled sum is the old mood plus `v * RewardMultiplier` for `v > 0` and plus
`v * PunishmentMultiplier` otherwise, and the new mood is the two cuts applied
to it. -/
theorem modifyMood_clamps_unless_nan (b : Bounds) (t : Trainer) (v : F64)
    (hb : F64.le b.TrainerMinMood b.TrainerMaxMood = true) :
    (t.scaledSum v ≠ .nan →
      F64.le b.TrainerMinMood (t.modifyMood b v).Mood = true ∧
      F64.le (t.modifyMood b v).Mood b.TrainerMaxMood = true) ∧
    (t.scaledSum v = .nan → (t.modifyMood b v).Mood = .nan) ∧
    (t.scaledSum v =
      F64.add t.mood (F64.mul v
        (if F64.lt (.fin 0) v = true then t.RewardMultiplier
          else t.PunishmentMultiplier))) ∧
    (t.modifyMood b v).Mood = cutMood b (t.scaledSum v) := by
  refine ⟨fun h => modifyMood_inBounds64 b t v hb h, fun h => modifyMood_nan64 b t v h,
    ?_, modifyMood_mood64 b t v⟩
  unfold Trainer.scaledSum
  split_ifs <;> rfl

theorem modifyMood_clamps_unless_nan_witness :
    (F64.le sampleBounds.TrainerMinMood sampleBounds.TrainerMaxMood = true) ∧
    ((sampleTrainer (.fin 1) (.fin 1) (.fin 0)).scaledSum .pinf ≠ .nan) ∧
    F64.le sampleBounds.TrainerMinMood
      ((sampleTrainer (.fin 1) (.fin 1) (.fin 0)).modifyMood sampleBounds .pinf).Mood = true ∧
    F64.le ((sampleTrainer (.fin 1) (.fin 1) (.fin 0)).modifyMood sampleBounds .pinf).Mood
      sampleBounds.TrainerMaxMood = true :=
  have hb : F64.le sampleBounds.TrainerMinMood sampleBounds.TrainerMaxMood = true := by
    simp [sampleBounds, F64.le]
  have hs : (sampleTrainer (.fin 1) (.fin 1) (.fin 0)).scaledSum .pinf ≠ .nan := by
    simp [Trainer.scaledSum, sampleTrainer, F64.lt, F64.mul, F64.add]
  ⟨hb, hs,
   (modifyMood_clamps_unless_nan sampleBounds (sampleTrainer (.fin 1) (.fin 1) (.fin 0))
      .pinf hb).1 hs⟩

/-- C13 fails as stated: with bounds `-10` and `10`, mood `0`,
`PunishmentMultiplier = +Inf` and delta `0`, the product `0 * +Inf` is NaN, both
cuts compare false and the mood after `modifyMood(0)` is NaN, which is not
`≥ TrainerMinMood`. -/
theorem modifyMood_nan_escapes_clamp :
    F64.le sampleBounds.TrainerMinMood sampleBounds.TrainerMaxMood = true ∧
    ((sampleTrainer (.fin 2) .pinf (.fin 0)).modifyMood sampleBounds (.fin 0)).Mood = .nan ∧
    ¬ (F64.le sampleBounds.TrainerMinMood
          ((sampleTrainer (.fin 2) .pinf (.fin 0)).modifyMood sampleBounds (.fin 0)).Mood = true ∧
        F64.le ((sampleTrainer (.fin 2) .pinf (.fin 0)).modifyMood sampleBounds (.fin 0)).Mood
          sampleBounds.TrainerMaxMood = true) := by
  have h : ((sampleTrainer (.fin 2) .pinf (.fin 0)).modifyMood sampleBounds (.fin 0)).Mood =
      .nan := by
    simp [Trainer.Mood, Trainer.modifyMood, sampleTrainer, sampleBounds, F64.lt, F64.mul,
      F64.add]
  refine ⟨by simp [sampleBounds, F64.le], h, ?_⟩
  rw [h]
  simp [f64_le_nan_right]

/-! ## C17: the probability of AskPermission, NaN and rounding -/

/-- C17, as the code behaves: whenever `AskPermission` computes `pb`, the
permission was resolved, `mood < MinMood` is false and `mood < CertainMood` is
true; if `MinMood` is not NaN the denominator `CertainMood - MinMood` is
strictly positive, so there is no division by zero; if moreover the numerator
`mood - MinMood` is finite then `0 ≤ pb ≤ 1`. `pb` is computed exactly under
the two guards, and never for a permission with `CertainMood ≤ MinMood`. -/
theorem askPermission_probability_range (cat : Catalog) (t : Trainer)
    (permissionID : String) (r : F64)
    (hcat : ∀ id p, cat.GetPermission id = .ok p → p.MinMood.Valid ∧ p.CertainMood.Valid) :
    (∀ pb, (t.AskPermissionTraced cat permissionID r).2 = some pb →
      ∃ p, cat.GetPermission permissionID = .ok p ∧
        F64.lt t.mood p.MinMood = false ∧ F64.lt t.mood p.CertainMood = true ∧
        pb = F64.div (F64.sub t.mood p.MinMood) (F64.sub p.CertainMood p.MinMood) ∧
        (p.MinMood ≠ .nan → F64.lt (.fin 0) (F64.sub p.CertainMood p.MinMood) = true) ∧
        ((F64.sub t.mood p.MinMood).Finite →
          F64.le (.fin 0) pb = true ∧ F64.le pb (.fin 1) = true)) ∧
    (∀ p, permissionID ∈ t.Permissions → cat.GetPermission permissionID = .ok p →
      F64.lt t.mood p.MinMood = false → F64.lt t.mood p.CertainMood = true →
      (t.AskPermissionTraced cat permissionID r).2 =
        some (F64.div (F64.sub t.mood p.MinMood) (F64.sub p.CertainMood p.MinMood))) ∧
    (∀ p, cat.GetPermission permissionID = .ok p →
      F64.le p.CertainMood p.MinMood = true →
      (t.AskPermissionTraced cat permissionID r).2 = none) := by
  refine ⟨?_, ?_, ?_⟩
  · intro pb h
    unfold Trainer.AskPermissionTraced at h
    split at h
    · cases h
    · split at h
      · cases h
      · rename_i p hp
        split at h
        · cases h
        · rename_i hmin
          have hmin' : F64.lt t.mood p.MinMood = false := by simpa using hmin
          split at h
          · rename_i hcert
            have hpb : pb = pbValue t p := by
              simp only at h
              split_ifs at h <;> (cases h; rfl)
            have hv := hcat _ _ hp
            refine ⟨p, hp, hmin', hcert, hpb, fun hne => ?_, fun hnum => ?_⟩
            · exact sub_pos_of_guards _ _ _ hv.1 hv.2 hmin' hcert hne
            · rw [hpb]
              exact pb_range _ _ _ hv.1 hv.2 hmin' hcert hnum
          · cases h
  · intro p hmem hp hmin hcert
    have hs : sliceContains t.Permissions permissionID = true :=
      (sliceContains_iff _ _).mpr hmem
    simp only [Trainer.AskPermissionTraced, hs, hp, hmin, hcert, Bool.not_true,
      Bool.false_eq_true, if_false, if_true, pbValue]
    split_ifs <;> rfl
  · intro p hp hle
    unfold Trainer.AskPermissionTraced
    split
    · rfl
    · rw [hp]
      simp only
      by_cases hmin : F64.lt t.mood p.MinMood = true
      · simp [hmin]
      · have hmin' : F64.lt t.mood p.MinMood = false := by simpa using hmin
        have hcert : F64.lt t.mood p.CertainMood = false := by
          by_contra hcon
          have hcon' : F64.lt t.mood p.CertainMood = true := by simpa using hcon
          have hm := (f64_ne_nan_of_lt _ _ hcon').1
          have hlo := (f64_ne_nan_of_le _ _ hle).2
          have h1 := (f64_not_lt_iff_le _ _ hm hlo).mp hmin'
          have h2 := f64_le_trans _ _ _ hle h1
          have h3 := f64_lt_false_of_le _ _ h2
          rw [hcon'] at h3
          cases h3
        simp [hmin', hcert]

theorem sampleCatalog_valid :
    ∀ id p, sampleCatalog.GetPermission id = .ok p → p.MinMood.Valid ∧ p.CertainMood.Valid := by
  have h10 : round 10 = .fin 10 := by simpa using (round_natCast 10 (by norm_num)).1
  have hm10 : round (-10) = .fin (-10) := by simpa using (round_natCast 10 (by norm_num)).2
  intro id p h
  simp only [sampleCatalog] at h
  split_ifs at h <;> cases h <;> simp [F64.Valid, round_zero, h10, hm10]

theorem askPermission_probability_range_witness :
    ((sampleTrainer (.fin 2) (.fin 1) (.fin 5)).AskPermissionTraced sampleCatalog "tv"
        (.fin 0)).2 =
      some (F64.div (F64.sub (.fin 5) (.fin 0)) (F64.sub (.fin 10) (.fin 0))) ∧
    ∃ p, sampleCatalog.GetPermission "tv" = .ok p ∧
      F64.lt (sampleTrainer (.fin 2) (.fin 1) (.fin 5)).mood p.MinMood = false ∧
      F64.lt (sampleTrainer (.fin 2) (.fin 1) (.fin 5)).mood p.CertainMood = true ∧
      (p.MinMood ≠ .nan → F64.lt (.fin 0) (F64.sub p.CertainMood p.MinMood) = true) :=
  have h : ((sampleTrainer (.fin 2) (.fin 1) (.fin 5)).AskPermissionTraced sampleCatalog "tv"
        (.fin 0)).2 =
      some (F64.div (F64.sub (.fin 5) (.fin 0)) (F64.sub (.fin 10) (.fin 0))) :=
    (askPermission_probability_range sampleCatalog (sampleTrainer (.fin 2) (.fin 1) (.fin 5))
      "tv" (.fin 0) sampleCatalog_valid).2.1
      { ID := "tv", MinMood := .fin 0, CertainMood := .fin 10 }
      (by simp [sampleTrainer]) (by simp [sampleCatalog])
      (by simp [sampleTrainer, F64.lt]) (by simp [sampleTrainer, F64.lt]; norm_num)
  ⟨h,
   ((askPermission_probability_range sampleCatalog (sampleTrainer (.fin 2) (.fin 1) (.fin 5))
      "tv" (.fin 0) sampleCatalog_valid).1 _ h).imp
     (fun _ hp => ⟨hp.1, hp.2.1, hp.2.2.1, hp.2.2.2.2.1⟩)⟩

theorem near_ten_valid : F64.Valid (.fin (5629499534213119 / 2 ^ 49)) := by
  have := (round_exact 5629499534213119 (-49) (by norm_num) (by norm_num) (by norm_num)).1
  simp only [F64.Valid]
  norm_num at this ⊢
  exact this

theorem near_ten_numerator :
    F64.sub (.fin (5629499534213119 / 2 ^ 49)) (.fin (-10)) = .fin 20 := by
  show round ((5629499534213119 / 2 ^ 49 : ℚ) + -(-10)) = _
  rw [round_eval ((5629499534213119 / 2 ^ 49 : ℚ) + -(-10)) (-48) 5629499534213120
    (by norm_num) (by norm_num) (by norm_num) (by norm_num)
    (roundHalfEven_tie_up _ _ (by norm_num) (by norm_num)) (by norm_num)]
  norm_num

theorem wide_denominator : F64.sub (.fin 10) (.fin (-10)) = .fin 20 := by
  show round ((10 : ℚ) + -(-10)) = _
  have := (round_natCast 20 (by norm_num)).1
  norm_num at this ⊢
  exact this

theorem twenty_by_twenty : F64.div (.fin 20) (.fin 20) = .fin 1 := by
  have h : F64.div (.fin 20) (.fin 20) = round (20 / 20) := by
    simp [F64.div]
  rw [h]
  have := round_one
  norm_num at this ⊢
  exact this

/-- C17 fails as stated, in two ways. Rounding: for the permission `wide` with
`MinMood = -10` and `CertainMood = 10` and the `float64` mood
`9.999999999999998`, which satisfies `MinMood ≤ mood < CertainMood`, numerator
and denominator both round to `20` and `pb` is exactly `1`, so `pb < 1` is
false. Infinity and NaN: for the permission `any` with `MinMood = -Inf` and
mood `0`, again with `MinMood ≤ mood < CertainMood`, `pb` is `Inf / Inf`, NaN,
so `0 ≤ pb` is false; and for the permission `odd` with `MinMood` NaN `pb` is
computed although `MinMood ≤ mood` is false, with a NaN denominator. -/
theorem askPermission_probability_fails :
    (F64.Valid (.fin (5629499534213119 / 2 ^ 49)) ∧
      F64.le (.fin (-10)) (sampleTrainer (.fin 2) (.fin 1)
        (.fin (5629499534213119 / 2 ^ 49))).mood = true ∧
      F64.lt (sampleTrainer (.fin 2) (.fin 1) (.fin (5629499534213119 / 2 ^ 49))).mood
        (.fin 10) = true ∧
      ((sampleTrainer (.fin 2) (.fin 1) (.fin (5629499534213119 / 2 ^ 49))).AskPermissionTraced
        sampleCatalog "wide" (.fin 0)).2 = some (.fin 1) ∧
      F64.lt (.fin 1) (.fin 1) = false) ∧
    (F64.le .ninf (sampleTrainer (.fin 2) (.fin 1) (.fin 0)).mood = true ∧
      F64.lt (sampleTrainer (.fin 2) (.fin 1) (.fin 0)).mood (.fin 10) = true ∧
      ((sampleTrainer (.fin 2) (.fin 1) (.fin 0)).AskPermissionTraced
        sampleCatalog "any" (.fin 0)).2 = some .nan ∧
      F64.le (.fin 0) .nan = false) ∧
    (F64.le .nan (sampleTrainer (.fin 2) (.fin 1) (.fin 0)).mood = false ∧
      ((sampleTrainer (.fin 2) (.fin 1) (.fin 0)).AskPermissionTraced
        sampleCatalog "odd" (.fin 0)).2 = some .nan ∧
      F64.sub (.fin 10) .nan = .nan ∧
      F64.lt (.fin 0) .nan = false) := by
  refine ⟨⟨near_ten_valid, ?_, ?_, ?_, by simp [F64.lt]⟩, ⟨rfl, ?_, ?_, rfl⟩,
    ⟨rfl, ?_, rfl, rfl⟩⟩
  · simp only [sampleTrainer, F64.le, decide_eq_true_eq]
    norm_num
  · simp only [sampleTrainer, F64.lt, decide_eq_true_eq]
    norm_num
  · have hlt1 : F64.lt (.fin (5629499534213119 / 2 ^ 49)) (.fin (-10)) = false := by
      simp only [F64.lt, decide_eq_false_iff_not]
      norm_num
    have hlt2 : F64.lt (.fin (5629499534213119 / 2 ^ 49)) (.fin 10) = true := by
      simp only [F64.lt, decide_eq_true_eq]
      norm_num
    have hpb : pbValue (sampleTrainer (.fin 2) (.fin 1) (.fin (5629499534213119 / 2 ^ 49)))
        { ID := "wide", MinMood := .fin (-10), CertainMood := .fin 10 } = .fin 1 := by
      show F64.div (F64.sub (.fin (5629499534213119 / 2 ^ 49)) (.fin (-10)))
        (F64.sub (.fin 10) (.fin (-10))) = _
      rw [near_ten_numerator, wide_denominator, twenty_by_twenty]
    simp only [Trainer.AskPermissionTraced, sliceContains, sampleTrainer, sampleCatalog]
    simp only [sampleTrainer] at hpb
    simp [hlt1, hlt2, hpb]
  · simp [sampleTrainer, F64.lt]
  · simp [Trainer.AskPermissionTraced, sliceContains, sampleTrainer, sampleCatalog, F64.lt,
      pbValue, F64.sub, F64.neg, F64.add, F64.div]
  · simp [Trainer.AskPermissionTraced, sliceContains, sampleTrainer, sampleCatalog, F64.lt,
      pbValue, F64.sub, F64.neg, F64.add, F64.div]

/-! ## C19: the direction of a mood change and NaN -/

/-- C19, as the code behaves: with `TrainerMinMood ≤ TrainerMaxMood`, the mood
within the bounds, both multipliers `≥ 0` and a scaled sum
`mood + v * multiplier` that is not NaN, `modifyMood(v)` never lowers the mood
for `v > 0` and never raises it for `v ≤ 0`; and for the same `v` and the same
multipliers a higher prior mood, whose scaled sum is not NaN either, never
gives a lower resulting mood. -/
theorem modifyMood_direction_unless_nan (b : Bounds) (t : Trainer) (v : F64)
    (hb : F64.le b.TrainerMinMood b.TrainerMaxMood = true)
    (hin : F64.le b.TrainerMinMood t.mood = true ∧ F64.le t.mood b.TrainerMaxMood = true)
    (hvalid : t.mood.Valid)
    (hR : F64.le (.fin 0) t.RewardMultiplier = true)
    (hP : F64.le (.fin 0) t.PunishmentMultiplier = true)
    (hs : t.scaledSum v ≠ .nan) :
    (F64.lt (.fin 0) v = true → F64.le t.mood (t.modifyMood b v).mood = true) ∧
    (F64.le v (.fin 0) = true → F64.le (t.modifyMood b v).mood t.mood = true) ∧
    (∀ m' : F64, F64.le t.mood m' = true →
      Trainer.scaledSum { t with mood := m' } v ≠ .nan →
      F64.le (t.modifyMood b v).mood
        (Trainer.modifyMood b { t with mood := m' } v).mood = true) := by
  have hself : cutMood b t.mood = t.mood := cutMood_self b _ hin.1 hin.2
  refine ⟨fun hv => ?_, fun hv => ?_, fun m' hm' hs' => ?_⟩
  · rw [scaledSum_pos t v hv] at hs
    have hp0 := mul_nonneg64 v _ hv hR (add_ne_nan _ _ hs).2
    have hge := add_ge_self t.mood _ hvalid hp0 hs
    rw [modifyMood_mood64, scaledSum_pos t v hv]
    have := cutMood_mono b _ _ hb hge
    rwa [hself] at this
  · have hv' := f64_lt_false_of_le _ _ hv
    rw [scaledSum_nonpos t v hv'] at hs
    have hp0 := mul_nonpos64 v _ hv hP (add_ne_nan _ _ hs).2
    have hle := add_le_self t.mood _ hvalid hp0 hs
    rw [modifyMood_mood64, scaledSum_nonpos t v hv']
    have := cutMood_mono b _ _ hb hle
    rwa [hself] at this
  · rw [modifyMood_mood64, modifyMood_mood64]
    apply cutMood_mono b _ _ hb
    unfold Trainer.scaledSum at hs hs' ⊢
    split_ifs at hs hs' ⊢
    · exact add_mono_left _ _ _ hm' hs hs'
    · exact add_mono_left _ _ _ hm' hs hs'

theorem modifyMood_direction_unless_nan_witness :
    (F64.le sampleBounds.TrainerMinMood sampleBounds.TrainerMaxMood = true) ∧
    (F64.le sampleBounds.TrainerMinMood (sampleTrainer (.fin 2) (.fin 1) (.fin 3)).mood = true ∧
      F64.le (sampleTrainer (.fin 2) (.fin 1) (.fin 3)).mood sampleBounds.TrainerMaxMood = true) ∧
    ((sampleTrainer (.fin 2) (.fin 1) (.fin 3)).scaledSum (.fin 2) ≠ .nan) ∧
    F64.le (sampleTrainer (.fin 2) (.fin 1) (.fin 3)).mood
      ((sampleTrainer (.fin 2) (.fin 1) (.fin 3)).modifyMood sampleBounds (.fin 2)).mood = true :=
  have hs : (sampleTrainer (.fin 2) (.fin 1) (.fin 3)).scaledSum (.fin 2) ≠ .nan :=
    scaledSum_ne_nan _ _ trivial trivial trivial trivial
  ⟨by simp [sampleBounds, F64.le],
   by simp [sampleBounds, sampleTrainer, F64.le]; norm_num, hs,
   (modifyMood_direction_unless_nan sampleBounds (sampleTrainer (.fin 2) (.fin 1) (.fin 3))
      (.fin 2) (by simp [sampleBounds, F64.le])
      (by simp [sampleBounds, sampleTrainer, F64.le]; norm_num)
      (by simpa [sampleTrainer, F64.Valid] using (round_natCast 3 (by norm_num)).1)
      (by simp [sampleTrainer, F64.le]) (by simp [sampleTrainer, F64.le]) hs).1
      (by simp [F64.lt])⟩

/-- C19 fails as stated: with bounds `-10` and `10`, mood `0`,
`RewardMultiplier = 0` and `PunishmentMultiplier = 1` (both `≥ 0`) and the
delta `v = +Inf > 0`, the product `+Inf * 0` is NaN and the mood after
`modifyMood(v)` is NaN, so `new mood ≥ old mood` is false. -/
theorem modifyMood_infinite_delta_loses_mood :
    F64.le sampleBounds.TrainerMinMood sampleBounds.TrainerMaxMood = true ∧
    (F64.le sampleBounds.TrainerMinMood (sampleTrainer (.fin 0) (.fin 1) (.fin 0)).mood = true ∧
      F64.le (sampleTrainer (.fin 0) (.fin 1) (.fin 0)).mood sampleBounds.TrainerMaxMood = true) ∧
    F64.le (.fin 0) (sampleTrainer (.fin 0) (.fin 1) (.fin 0)).RewardMultiplier = true ∧
    F64.le (.fin 0) (sampleTrainer (.fin 0) (.fin 1) (.fin 0)).PunishmentMultiplier = true ∧
    F64.lt (.fin 0) .pinf = true ∧
    ((sampleTrainer (.fin 0) (.fin 1) (.fin 0)).modifyMood sampleBounds .pinf).mood = .nan ∧
    F64.le (sampleTrainer (.fin 0) (.fin 1) (.fin 0)).mood
      ((sampleTrainer (.fin 0) (.fin 1) (.fin 0)).modifyMood sampleBounds .pinf).mood = false := by
  have h : ((sampleTrainer (.fin 0) (.fin 1) (.fin 0)).modifyMood sampleBounds .pinf).mood =
      .nan := by
    simp [Trainer.modifyMood, sampleTrainer, sampleBounds, F64.lt, F64.mul, F64.add]
  refine ⟨by simp [sampleBounds, F64.le], by simp [sampleBounds, sampleTrainer, F64.le],
    by simp [sampleTrainer, F64.le], by simp [sampleTrainer, F64.le], rfl, h, ?_⟩
  rw [h]
  exact f64_le_nan_right _

end Binary64

end Traineer
